import Mathlib

/-!
# myls: a shallow embedding of `src/myls.c`

The C program keeps its state in file-scope globals.  The embedding gathers the
option flags in `Flags` and the per-directory state in `Session`, and turns every
C function into a Lean function on those records.

Conventions of the embedding

* `int` / `unsigned long` quantities that are never negative in the program
  (widths, counts, inode and block numbers) are `Nat`; the terminal width
  `win_cols` and the pad widths handed to `printf("%*s")` are `Int` because they
  may be negative.  None of the arithmetic modelled here can leave the range of
  a 32 bit `int` for directory entries of realistic size.
* A NUL terminated `char` buffer is the list of its characters before the NUL.
* `files[0 .. total_files-1]` is the list `Session.files`; `total_files` is its
  length.
* The capacities of the name buffers (`NAME_MAX + 1`, `NAME_MAX + 3`) and of
  `files` (2048 records) are not part of the embedding: names and directories are
  taken to fit them.
* The three `int[COL_MAX]` accumulators are functions `Nat → Nat`; every access
  is guarded by an explicit bound check and an access outside `0 .. COL_MAX-1`,
  like a division by zero, ends the run in a `Fault`.
* The results of `getpwuid` and `getgrgid` are `Option`s, `none` being `NULL`;
  the program dereferences them unchecked, so a use of `none` ends the run in a
  `Fault` as well.
* Loops with a trip count known on entry recurse on that count; the search loop
  of `calculateColumnCount` recurses on a fuel of `COL_MAX` rounds.
-/

namespace Myls

/-! ## Constants -/

/-- The macro `COL_MAX` of `myls.c`. -/
def COL_MAX : Nat := 20

/-- File type mask `S_IFMT` of `<sys/stat.h>` (Linux value). -/
def S_IFMT : Nat := 0o170000
/-- Socket file type `S_IFSOCK`. -/
def S_IFSOCK : Nat := 0o140000
/-- Symbolic link file type `S_IFLNK`. -/
def S_IFLNK : Nat := 0o120000
/-- Regular file type `S_IFREG`. -/
def S_IFREG : Nat := 0o100000
/-- Block device file type `S_IFBLK`. -/
def S_IFBLK : Nat := 0o060000
/-- Directory file type `S_IFDIR`. -/
def S_IFDIR : Nat := 0o040000
/-- Character device file type `S_IFCHR`. -/
def S_IFCHR : Nat := 0o020000
/-- FIFO file type `S_IFIFO`. -/
def S_IFIFO : Nat := 0o010000
/-- Owner read permission bit. -/
def S_IRUSR : Nat := 0o400
/-- Owner write permission bit. -/
def S_IWUSR : Nat := 0o200
/-- Owner execute permission bit. -/
def S_IXUSR : Nat := 0o100
/-- Group read permission bit. -/
def S_IRGRP : Nat := 0o040
/-- Group write permission bit. -/
def S_IWGRP : Nat := 0o020
/-- Group execute permission bit. -/
def S_IXGRP : Nat := 0o010
/-- Others read permission bit. -/
def S_IROTH : Nat := 0o004
/-- Others write permission bit. -/
def S_IWOTH : Nat := 0o002
/-- Others execute permission bit. -/
def S_IXOTH : Nat := 0o001

/-! ## Data model -/

/-- The record `struct FileInfo`.  `size` is the cached `strlen` of `name`. -/
structure FileInfo where
  name : List Char
  size : Nat
  inode : Nat
  user : Nat
  group : Nat
  size_bytes : Nat
  time : Int
  links : Nat
  mode : Nat
  blocks : Nat
  deriving DecidableEq, Repr, Inhabited

/-- The option flags set by `getopt` in `main`, together with `line_format` and
the terminal width `win_cols`; they are read-only once parsing is over. -/
structure Flags where
  aflag : Bool := false
  Aflag : Bool := false
  Fflag : Bool := false
  gflag : Bool := false
  Gflag : Bool := false
  iflag : Bool := false
  lflag : Bool := false
  nflag : Bool := false
  oflag : Bool := false
  pflag : Bool := false
  Qflag : Bool := false
  rflag : Bool := false
  sflag : Bool := false
  line_format : Bool := false
  win_cols : Int := 80

/-- The per-directory globals of `myls.c`. -/
structure Session where
  files : List FileInfo
  max_size : Nat
  column_count : Nat
  name_indent : Nat
  user_indent : Nat
  group_indent : Nat
  size_indent : Nat
  links_indent : Nat
  blocks_indent : Nat
  col_indent_inode_max : Nat
  total_blocks : Nat
  col_indent : Nat → Nat
  col_indent_blocks : Nat → Nat
  col_indent_inode : Nat → Nat

/-- The global `total_files`: the number of entries stored in `files`. -/
def Session.total_files (st : Session) : Nat := st.files.length

/-- The ways a run leaves defined behaviour, plus exhaustion of the search fuel. -/
inductive Fault where
  | divByZero
  | outOfBounds
  | nullPointer
  | outOfFuel
  deriving DecidableEq, Repr

/-- The function `initializeFiles`: every counter back to its starting value, the
entry list empty, the three accumulator arrays zeroed. -/
def initializeFiles : Session :=
  { files := []
    max_size := 0
    column_count := 1
    name_indent := 0
    user_indent := 0
    group_indent := 0
    size_indent := 0
    links_indent := 0
    blocks_indent := 0
    col_indent_inode_max := 0
    total_blocks := 0
    col_indent := fun _ => 0
    col_indent_blocks := fun _ => 0
    col_indent_inode := fun _ => 0 }

/-- Assignment `a[i] = v` on an accumulator array. -/
def setAt (a : Nat → Nat) (i v : Nat) : Nat → Nat :=
  fun k => if k = i then v else a k

/-! ## countDigits -/

/-- The recursion of `countDigits`, cut off after `fuel` calls. -/
def countDigitsFuel : Nat → Nat → Nat
  | 0, _ => 1
  | fuel + 1, num => if num < 10 then 1 else 1 + countDigitsFuel fuel (num / 10)

/-- The function `countDigits`.  The recursion divides `num` by ten at every call,
so `num` calls are always enough; `countDigits_unfold` recovers the C equation. -/
def countDigits (num : Nat) : Nat := countDigitsFuel num num

/-! ## strcmp and sortFiles -/

/-- The library function `strcmp` on two NUL terminated buffers: the bytes are
compared in turn up to the first difference or the first NUL, and the result is the
difference of the two bytes reached.  The end of a list stands for the terminating
NUL, byte 0. -/
def strcmp : List Char → List Char → Int
  | [], [] => 0
  | [], b :: _ => 0 - (b.toNat : Int)
  | a :: _, [] => (a.toNat : Int)
  | a :: as, b :: bs =>
    if a = b then (if a.toNat = 0 then 0 else strcmp as bs)
    else (a.toNat : Int) - (b.toNat : Int)

/-- A well formed C string: no character of the list is the NUL byte. -/
def IsCString (s : List Char) : Prop := ∀ c ∈ s, c.toNat ≠ 0

instance (s : List Char) : Decidable (IsCString s) :=
  inferInstanceAs (Decidable (∀ c ∈ s, c.toNat ≠ 0))

/-- The inner `while` loop of `sortFiles`, entered with index `j`: while `j > 0` and
`files[j]` sorts before `files[j-1]` the two records are swapped and `j` decreases. -/
def sortInner (files : List FileInfo) : Nat → List FileInfo
  | 0 => files
  | j + 1 =>
    match files[j + 1]?, files[j]? with
    | some cur, some prev =>
      if strcmp cur.name prev.name < 0 then
        sortInner ((files.set (j + 1) prev).set j cur) j
      else files
    | _, _ => files

/-- The outer `for` loop of `sortFiles` from index `i`, with `remaining` rounds left. -/
def sortOuter : Nat → Nat → List FileInfo → List FileInfo
  | 0, _, files => files
  | remaining + 1, i, files => sortOuter remaining (i + 1) (sortInner files i)

/-- The function `sortFiles`: `for (i = 1; i < total_files; ++i)` runs
`total_files - 1` rounds of the inner loop. -/
def sortFiles (st : Session) : Session :=
  { st with files := sortOuter (st.total_files - 1) 1 st.files }

/-! ## dopath: collecting the entries of a directory -/

/-- The fields of `struct stat` that `dopath` copies. -/
structure Stat where
  st_mode : Nat
  st_ino : Nat
  st_uid : Nat
  st_gid : Nat
  st_size : Nat
  st_mtime : Int
  st_nlink : Nat
  st_blocks : Nat
  deriving DecidableEq, Repr, Inhabited

/-- One result of `readdir` with the outcome of `lstat` on it: `none` when `lstat`
fails, in which case `statbuf` keeps what the previous call left in it. -/
structure Member where
  d_name : List Char
  stat : Option Stat
  deriving DecidableEq, Repr

/-- The external collaborators of the program: the lookups `getpwuid` and `getgrgid`,
which yield the name stored in the entry of a numeric id, or `none` (the pointer
`NULL`) for an id without an entry; the clock (`time`); and `localtime` +
`strftime`. -/
structure Env where
  getpwuid : Nat → Option (List Char)
  getgrgid : Nat → Option (List Char)
  now : Int
  strftime : List Char → Int → List Char

/-- The string `pwd->pw_name` of an id that `getpwuid` resolves. -/
def Env.pw_name (env : Env) (uid : Nat) : List Char := (env.getpwuid uid).getD []

/-- The string `grp->gr_name` of an id that `getgrgid` resolves. -/
def Env.gr_name (env : Env) (gid : Nat) : List Char := (env.getgrgid gid).getD []

/-- The two `continue` tests at the head of the `readdir` loop: `true` when the
member is skipped. -/
def skipped (fl : Flags) (d_name : List Char) : Bool :=
  if !fl.aflag && !fl.Aflag && d_name.head? == some '.' then true
  else if fl.Aflag && (strcmp d_name ['.'] == 0 || strcmp d_name ['.', '.'] == 0) then true
  else false

/-- The buffer `name_pointer` after the `Qflag` block: with `-Q` a fresh buffer holding
a double quote, the name and a double quote, otherwise the buffer `name` itself. -/
def quoteName (fl : Flags) (name : List Char) : List Char :=
  if fl.Qflag then ['"'] ++ name ++ ['"'] else name

/-- The `switch` on `statbuf.st_mode & S_IFMT` under `Fflag || pflag`: the indicator
character is written over the terminating NUL of `name_pointer`. -/
def appendIndicator (fl : Flags) (st_mode : Nat) (name_pointer : List Char) : List Char :=
  if fl.Fflag || fl.pflag then
    if st_mode &&& S_IFMT = S_IFDIR then name_pointer ++ ['/']
    else if st_mode &&& S_IFMT = S_IFIFO then name_pointer ++ ['|']
    else if st_mode &&& S_IFMT = S_IFLNK then name_pointer ++ ['@']
    else if st_mode &&& S_IFMT = S_IFSOCK then name_pointer ++ ['=']
    else if st_mode &&& S_IFMT = S_IFREG then
      if fl.Fflag then
        if st_mode &&& S_IXUSR ≠ 0 then name_pointer ++ ['*']
        else if st_mode &&& S_IXGRP ≠ 0 then name_pointer ++ ['*']
        else if st_mode &&& S_IXOTH ≠ 0 then name_pointer ++ ['*']
        else name_pointer
      else name_pointer
    else name_pointer
  else name_pointer

/-- The string `name_pointer` that `dopath` stores for a member. -/
def storedName (fl : Flags) (d_name : List Char) (st_mode : Nat) : List Char :=
  appendIndicator fl st_mode (quoteName fl d_name)

/-- The record written to `files[total_files]`. -/
def makeEntry (fl : Flags) (d_name : List Char) (statbuf : Stat) : FileInfo :=
  { name := storedName fl d_name statbuf.st_mode
    size := (storedName fl d_name statbuf.st_mode).length
    inode := statbuf.st_ino
    user := statbuf.st_uid
    group := statbuf.st_gid
    size_bytes := statbuf.st_size
    time := statbuf.st_mtime
    links := statbuf.st_nlink
    mode := statbuf.st_mode
    blocks := statbuf.st_blocks }

/-- The value of `strlen(name)` in the `max_size` test.  Without `-Q` the pointer
`name_pointer` aliases `name`, so the indicator is part of it; with `-Q` the buffer
`name` still holds the bare directory name. -/
def nameBufferLen (fl : Flags) (d_name : List Char) (st_mode : Nat) : Nat :=
  if fl.Qflag then d_name.length else (storedName fl d_name st_mode).length

/-- The assignments of the `readdir` loop for a member that is not skipped: the
record is appended and the running maxima are raised.  `group_width` and
`user_width` are the widths compared with `group_indent` and `user_indent`: the digit
counts of the ids under `-n`, else the lengths of the names looked up. -/
def storeEntry (fl : Flags) (d_name : List Char) (statbuf : Stat)
    (group_width user_width : Nat) (st : Session) : Session :=
  let stored := storedName fl d_name statbuf.st_mode
  { st with
    files := st.files ++ [makeEntry fl d_name statbuf]
    total_blocks := st.total_blocks + statbuf.st_blocks
    group_indent := if group_width > st.group_indent then group_width else st.group_indent
    user_indent := if user_width > st.user_indent then user_width else st.user_indent
    max_size :=
      if nameBufferLen fl d_name statbuf.st_mode > st.max_size then stored.length
      else st.max_size
    links_indent :=
      if countDigits statbuf.st_nlink > st.links_indent then countDigits statbuf.st_nlink
      else st.links_indent
    size_indent :=
      if countDigits statbuf.st_size > st.size_indent then countDigits statbuf.st_size
      else st.size_indent
    blocks_indent :=
      if countDigits statbuf.st_blocks > st.blocks_indent then countDigits statbuf.st_blocks
      else st.blocks_indent
    col_indent_inode_max :=
      if countDigits statbuf.st_ino > st.col_indent_inode_max then countDigits statbuf.st_ino
      else st.col_indent_inode_max }

/-- The body of the `readdir` loop for a member that is not skipped.  Without `-n`
the results of `getgrgid` and `getpwuid` are dereferenced unchecked (`grp->gr_name`,
`pwd->pw_name`), so an id without an entry ends the run at a null pointer. -/
def collectEntry (fl : Flags) (env : Env) (d_name : List Char) (statbuf : Stat)
    (st : Session) : Except Fault Session :=
  if fl.nflag then
    .ok (storeEntry fl d_name statbuf (countDigits statbuf.st_gid)
      (countDigits statbuf.st_uid) st)
  else
    match env.getgrgid statbuf.st_gid, env.getpwuid statbuf.st_uid with
    | some gr_name, some pw_name =>
      .ok (storeEntry fl d_name statbuf gr_name.length pw_name.length st)
    | _, _ => .error .nullPointer

/-- The `readdir` loop of `dopath` over the members of an opened directory.
`statbuf` is the local `struct stat`, whose contents survive a failed `lstat`. -/
def dopathLoop (fl : Flags) (env : Env) :
    List Member → Stat → Session → Except Fault Session
  | [], _, st => .ok st
  | m :: rest, statbuf, st =>
    if skipped fl m.d_name then dopathLoop fl env rest statbuf st
    else
      let statbuf1 := match m.stat with
        | some s => s
        | none => statbuf
      match collectEntry fl env m.d_name statbuf1 st with
      | .error e => .error e
      | .ok st1 => dopathLoop fl env rest statbuf1 st1

/-- The function `dopath` on a directory that `opendir` could open; `statbuf0` is
the indeterminate initial content of the local `statbuf`. -/
def dopath (fl : Flags) (env : Env) (members : List Member) (statbuf0 : Stat)
    (st : Session) : Except Fault Session :=
  dopathLoop fl env members statbuf0 st

/-! ## convertMode -/

/-- The function `convertMode`: the ten characters written to `mode[0..9]` (the
eleventh byte is the terminating NUL). -/
def convertMode (oldmode : Nat) : List Char :=
  [ (if oldmode &&& S_IFMT = S_IFDIR then 'd'
     else if oldmode &&& S_IFMT = S_IFLNK then 'l'
     else if oldmode &&& S_IFMT = S_IFIFO then 'p'
     else if oldmode &&& S_IFMT = S_IFCHR then 'c'
     else if oldmode &&& S_IFMT = S_IFBLK then 'b'
     else if oldmode &&& S_IFMT = S_IFSOCK then 's'
     else '-'),
    (if oldmode &&& S_IRUSR ≠ 0 then 'r' else '-'),
    (if oldmode &&& S_IWUSR ≠ 0 then 'w' else '-'),
    (if oldmode &&& S_IXUSR ≠ 0 then 'x' else '-'),
    (if oldmode &&& S_IRGRP ≠ 0 then 'r' else '-'),
    (if oldmode &&& S_IWGRP ≠ 0 then 'w' else '-'),
    (if oldmode &&& S_IXGRP ≠ 0 then 'x' else '-'),
    (if oldmode &&& S_IROTH ≠ 0 then 'r' else '-'),
    (if oldmode &&& S_IWOTH ≠ 0 then 'w' else '-'),
    (if oldmode &&& S_IXOTH ≠ 0 then 'x' else '-') ]

/-! ## calculateColumnCount -/

/-- The flat position read for loop index `i`: `pos = i`, and with `-r`
`pos = (total_files - 1) - pos`. -/
def renderPos (fl : Flags) (total_files i : Nat) : Nat :=
  if fl.rflag then (total_files - 1) - i else i

/-- A quotient rounded up the way the program does it: `n / c`, plus one when
`n % c > 0`. -/
def ceilDiv (n c : Nat) : Nat :=
  n / c + (if n % c > 0 then 1 else 0)

/-- The body of the accumulation loop for index `i`: the three accumulators of
column `i / row_size` are raised to the widths of entry `files[pos]`. -/
def accumulateEntry (fl : Flags) (row_size i : Nat) (st : Session) : Except Fault Session :=
  match st.files[renderPos fl st.total_files i]? with
  | none => .error .outOfBounds
  | some f =>
    if row_size = 0 then .error .divByZero
    else if COL_MAX ≤ i / row_size then .error .outOfBounds
    else
      .ok { st with
        col_indent :=
          if f.size > st.col_indent (i / row_size) then
            setAt st.col_indent (i / row_size) f.size
          else st.col_indent
        col_indent_blocks :=
          if countDigits f.blocks > st.col_indent_blocks (i / row_size) then
            setAt st.col_indent_blocks (i / row_size) (countDigits f.blocks)
          else st.col_indent_blocks
        col_indent_inode :=
          if countDigits f.inode > st.col_indent_inode (i / row_size) then
            setAt st.col_indent_inode (i / row_size) (countDigits f.inode)
          else st.col_indent_inode }

/-- The loop `for (i = 0; i < total_files; ++i)` from index `i` with `remaining`
rounds left. -/
def accumulateLoop (fl : Flags) (row_size : Nat) : Nat → Nat → Session → Except Fault Session
  | 0, _, st => .ok st
  | remaining + 1, i, st =>
    match accumulateEntry fl row_size i st with
    | .error e => .error e
    | .ok st1 => accumulateLoop fl row_size remaining (i + 1) st1

/-- The value of `row_len` after the loop `for (j = 0; j < n; ++j)`. -/
def rowLen (fl : Flags) (st : Session) : Nat → Nat
  | 0 => 0
  | j + 1 =>
    rowLen fl st j + st.col_indent j
      + (if fl.sflag then st.blocks_indent + 1 else 0)
      + (if fl.iflag then st.col_indent_inode j + 1 else 0)

/-- The loop `for (k = 0; k < n; ++k) col_indent[k] = 0`. -/
def clearFirst : Nat → (Nat → Nat) → (Nat → Nat)
  | 0, a => a
  | k + 1, a => setAt (clearFirst k a) k 0

/-- One round of the `while` body, entered with `column_count > 1`.  The result
carries the new state and whether the round ended in `break`.  The row count cannot
be zero unless there is no entry, so `column_count` is at least one where it is
decremented. -/
def probe (fl : Flags) (st : Session) : Except Fault (Session × Bool) :=
  if st.column_count = 0 then .error .divByZero
  else if ceilDiv st.total_files st.column_count = 0 then .error .divByZero
  else
    let row_size := ceilDiv st.total_files st.column_count
    let new_column_count := ceilDiv st.total_files row_size
    let st1 : Session :=
      if new_column_count < st.column_count then { st with column_count := new_column_count }
      else st
    match accumulateLoop fl row_size st1.total_files 0 st1 with
    | .error e => .error e
    | .ok st2 =>
      if COL_MAX < st2.column_count then .error .outOfBounds
      else if ((rowLen fl st2 st2.column_count : Nat) : Int)
                + ((st2.column_count : Int) - 1) * 2 ≥ fl.win_cols then
        .ok ({ st2 with
                col_indent := clearFirst st2.column_count st2.col_indent
                column_count := st2.column_count - 1 }, false)
      else .ok (st2, true)

/-- The loop `while (column_count > 1)`.  Every round that does not `break` lowers
`column_count`, so `COL_MAX` rounds of fuel are never used up (`searchLoop_fuel_suffices`). -/
def searchLoop (fl : Flags) : Nat → Session → Except Fault Session
  | 0, st => if st.column_count > 1 then .error .outOfFuel else .ok st
  | fuel + 1, st =>
    if st.column_count > 1 then
      match probe fl st with
      | .error e => .error e
      | .ok (st1, true) => .ok st1
      | .ok (st1, false) => searchLoop fl fuel st1
    else .ok st

/-- The function `calculateColumnCount`. -/
def calculateColumnCount (fl : Flags) (st : Session) : Except Fault Session :=
  match searchLoop fl COL_MAX { st with column_count := COL_MAX } with
  | .error e => .error e
  | .ok st1 =>
    .ok (if st1.column_count = 1 then { st1 with col_indent := setAt st1.col_indent 0 st1.max_size }
         else st1)

/-- The loop `while (column_count > 1)` with the local variable `row_size` made
visible: next to the state it returns the value `row_size` holds when the loop ends,
`none` while the variable is still unassigned.  Every round assigns it
`ceil(total_files / column_count)` from the `column_count` the round starts with. -/
def searchLoopRowSize (fl : Flags) : Nat → Session → Option Nat →
    Except Fault (Session × Option Nat)
  | 0, st, row_size => if st.column_count > 1 then .error .outOfFuel else .ok (st, row_size)
  | fuel + 1, st, row_size =>
    if st.column_count > 1 then
      match probe fl st with
      | .error e => .error e
      | .ok (st1, true) => .ok (st1, some (ceilDiv st.total_files st.column_count))
      | .ok (st1, false) =>
        searchLoopRowSize fl fuel st1 (some (ceilDiv st.total_files st.column_count))
    else .ok (st, row_size)

/-- The value of the local `row_size` when `calculateColumnCount` returns. -/
def lastRowSize (fl : Flags) (st : Session) : Option Nat :=
  match searchLoopRowSize fl COL_MAX { st with column_count := COL_MAX } none with
  | .error _ => none
  | .ok (_, row_size) => row_size

/-! ## printDir -/

/-- The decimal digits of `n`, most significant first, cut off after `fuel` steps. -/
def decimalFuel : Nat → Nat → List Char
  | 0, n => [Nat.digitChar n]
  | fuel + 1, n =>
    if n < 10 then [Nat.digitChar n] else decimalFuel fuel (n / 10) ++ [Nat.digitChar (n % 10)]

/-- What `printf("%ld")` prints for a number that is not negative. -/
def decimal (n : Nat) : List Char := decimalFuel n n

/-- The conversion `%*s` / `%*ld` with a width that is not negative: the text right
justified in a field of the given width. -/
def padLeft (width : Nat) (text : List Char) : List Char :=
  List.replicate (width - text.length) ' ' ++ text

/-- The conversion `printf("%*s", width, "")`: `|width|` spaces (a negative width
asks for left justification in a field of the absolute value). -/
def blankField (width : Int) : List Char :=
  List.replicate width.natAbs ' '

/-- The format handed to `strftime` for `time_buf`: the `if` on
`raw_time_now - files[pos].time < 180 * 24 * 60 * 60` picks the format with the time
of day, the `else` the format with the year. -/
def timeFormat (raw_time_now mtime : Int) : List Char :=
  if raw_time_now - mtime < 180 * 24 * 60 * 60 then "%b %e %H:%M".toList
  else "%b %e  %Y".toList

/-- The unchecked dereferences of one iteration of the long format: `pwd->pw_name`
when the owner is printed by name, `grp->gr_name` when the group is; `true` when one
of them meets a null pointer. -/
def longLineFault (fl : Flags) (env : Env) (f : FileInfo) : Bool :=
  fl.lflag && !fl.nflag &&
    ((!fl.gflag && (env.getpwuid f.user).isNone) ||
     (!fl.Gflag && !fl.oflag && (env.getgrgid f.group).isNone))

/-- One line of the long format for entry `f` at loop index `i`, as an iteration
prints it that meets no null pointer (`longLineFault`). -/
def longLine (fl : Flags) (env : Env) (st : Session) (i : Nat) (f : FileInfo) : List Char :=
  if fl.lflag then
    (if fl.iflag then padLeft st.col_indent_inode_max (decimal f.inode) ++ [' '] else [])
    ++ (if fl.sflag then padLeft st.blocks_indent (decimal f.blocks) ++ [' '] else [])
    ++ convertMode f.mode ++ [' '] ++ padLeft st.links_indent (decimal f.links) ++ [' ']
    ++ (if !fl.gflag then
          (if fl.nflag then padLeft st.user_indent (decimal f.user) ++ [' ']
           else padLeft st.user_indent (env.pw_name f.user) ++ [' '])
        else [])
    ++ (if !fl.Gflag && !fl.oflag then
          (if fl.nflag then padLeft st.group_indent (decimal f.group) ++ [' ']
           else padLeft st.group_indent (env.gr_name f.group) ++ [' '])
        else [])
    ++ padLeft st.size_indent (decimal f.size_bytes) ++ [' ']
    ++ env.strftime (timeFormat env.now f.time) f.time
    ++ [' '] ++ f.name
    ++ (if i + 1 < st.total_files then ['\n'] else [])
  else []

/-- The loop `for (i = 0; i < total_files; ++i)` of the long format from index `i`,
with `remaining` iterations left: the line of `files[pos]` for every index in turn. -/
def longLinesFrom (fl : Flags) (env : Env) (st : Session) :
    Nat → Nat → Except Fault (List Char)
  | 0, _ => .ok []
  | remaining + 1, i =>
    match st.files[renderPos fl st.total_files i]? with
    | none => .error .outOfBounds
    | some f =>
      if longLineFault fl env f then .error .nullPointer
      else
        match longLinesFrom fl env st remaining (i + 1) with
        | .error e => .error e
        | .ok rest => .ok (longLine fl env st i f ++ rest)

/-- Everything the long format prints after the `total` line. -/
def longLines (fl : Flags) (env : Env) (st : Session) : Except Fault (List Char) :=
  longLinesFrom fl env st st.total_files 0

/-- The entry shown in row `i`, column `j` of the grid: flat position
`i + j * column_len`, when it is below `total_files`, mirrored under `-r`. -/
def gridEntry (fl : Flags) (st : Session) (column_len i j : Nat) : Option FileInfo :=
  if i + j * column_len < st.total_files then
    st.files[renderPos fl st.total_files (i + j * column_len)]?
  else none

/-- What the grid branch prints for an entry: the inode field, the block field and
the name, padded to the width of its column unless `win_cols` is zero. -/
def cellText (fl : Flags) (st : Session) (column_len i j : Nat) (f : FileInfo) :
    Except Fault (List Char) :=
  let inodeField :=
    if fl.iflag then padLeft st.col_indent_inode_max (decimal f.inode) ++ [' '] else []
  let blocksField :=
    if fl.sflag then
      blankField ((st.blocks_indent : Int) - (countDigits f.blocks : Int))
        ++ decimal f.blocks ++ [' ']
    else []
  if fl.win_cols = 0 then .ok (inodeField ++ blocksField ++ f.name)
  else if column_len = 0 then .error .divByZero
  else if COL_MAX ≤ (i + j * column_len) / column_len then .error .outOfBounds
  else
    .ok (inodeField ++ blocksField ++ f.name
      ++ blankField ((st.col_indent ((i + j * column_len) / column_len) : Int)
          - (f.name.length : Int)))

/-- What iteration `(i, j)` of the nested loops prints: the cell, when its position
is in range, followed by a newline after the last column of every row but the last,
and by two spaces after every other column. -/
def gridCell (fl : Flags) (st : Session) (column_len i j : Nat) : Except Fault (List Char) :=
  let separator : List Char :=
    if j + 1 = st.column_count ∧ i + 1 < column_len then ['\n']
    else if j + 1 < st.column_count then [' ', ' ']
    else []
  match gridEntry fl st column_len i j with
  | none => .ok separator
  | some f =>
    match cellText fl st column_len i j f with
    | .error e => .error e
    | .ok text => .ok (text ++ separator)

/-- The inner loop `for (j = 0; j < column_count; ++j)` of row `i`, from column `j`
with `remaining` columns left. -/
def gridRowFrom (fl : Flags) (st : Session) (column_len i : Nat) :
    Nat → Nat → Except Fault (List Char)
  | 0, _ => .ok []
  | remaining + 1, j =>
    match gridCell fl st column_len i j with
    | .error e => .error e
    | .ok text =>
      match gridRowFrom fl st column_len i remaining (j + 1) with
      | .error e => .error e
      | .ok rest => .ok (text ++ rest)

/-- Everything printed for row `i` of the grid. -/
def gridRow (fl : Flags) (st : Session) (column_len i : Nat) : Except Fault (List Char) :=
  gridRowFrom fl st column_len i st.column_count 0

/-- The outer loop `for (i = 0; i < column_len; ++i)` from row `i`. -/
def gridRowsFrom (fl : Flags) (st : Session) (column_len : Nat) :
    Nat → Nat → Except Fault (List Char)
  | 0, _ => .ok []
  | remaining + 1, i =>
    match gridRow fl st column_len i with
    | .error e => .error e
    | .ok text =>
      match gridRowsFrom fl st column_len remaining (i + 1) with
      | .error e => .error e
      | .ok rest => .ok (text ++ rest)

/-- The function `printDir`: the characters written to standard output. -/
def printDir (fl : Flags) (env : Env) (st : Session) : Except Fault (List Char) :=
  if fl.line_format then
    match longLines fl env st with
    | .error e => .error e
    | .ok text => .ok ("total ".toList ++ decimal st.total_blocks ++ ['\n'] ++ text ++ ['\n'])
  else if st.column_count = 0 then .error .divByZero
  else
    match gridRowsFrom fl st (ceilDiv st.total_files st.column_count)
        (ceilDiv st.total_files st.column_count) 0 with
    | .error e => .error e
    | .ok text => .ok (text ++ ['\n'])

/-! ## main: the width option -/

/-- The library function `isdigit` on a character of the option argument. -/
def isdigit (c : Char) : Bool := 48 ≤ c.toNat && c.toNat ≤ 57

/-- The loop of `main` over the characters of `wvalue`: `false` as soon as a
character is not a digit, which is where the program prints its diagnostic and calls
`exit(1)`. -/
def allDigits : List Char → Bool
  | [] => true
  | c :: rest => if !isdigit c then false else allDigits rest

/-- The largest value of a `long`. -/
def LONG_MAX : Int := 2 ^ 63 - 1

/-- The number that a string of decimal digits accumulates to, most significant digit
first. -/
def digitsValue (s : List Char) : Nat :=
  s.foldl (fun v c => 10 * v + (c.toNat - 48)) 0

/-- The library call `strtol(wvalue, &endptr, 10)` on a string of decimal digits: the
value of the digits, `LONG_MAX` when that is out of range, and 0 for the empty
string. -/
def strtol (s : List Char) : Int :=
  if (digitsValue s : Int) > LONG_MAX then LONG_MAX else digitsValue s

/-- The conversion of the `long` result to the `int` variable `win_cols`: the value
modulo `2^32`, read as a signed 32 bit number. -/
def longToInt (v : Int) : Int := (v + 2 ^ 31) % 2 ^ 32 - 2 ^ 31

/-- How the program ends at `exit`: its status and what it printed last. -/
structure Exit where
  status : Nat
  output : List Char
  deriving DecidableEq, Repr

/-- The assignment of `win_cols` in `main`: without `-w` the terminal width
`w.ws_col`; with `-w` the argument is checked character by character and then
converted by `strtol`. -/
def widthOption (ws_col : Nat) : Option (List Char) → Except Exit Int
  | none => .ok ws_col
  | some wvalue =>
    if allDigits wvalue then .ok (longToInt (strtol wvalue))
    else
      .error
        { status := 1
          output := "ls: invalid line width: ".toList ++ [Char.ofNat 39] ++ wvalue
            ++ [Char.ofNat 39, '\n'] }

/-- The layout step of `main` for one directory: with `win_cols == 0` the column
count is the number of entries, else, outside the long format, it is searched. -/
def layoutDirectory (fl : Flags) (st : Session) : Except Fault Session :=
  if fl.win_cols = 0 then .ok { st with column_count := st.total_files }
  else if !fl.line_format then calculateColumnCount fl st
  else .ok st

/-- The calls `calculateColumnCount(); printDir();` of `main` on a sorted session. -/
def renderDirectory (fl : Flags) (env : Env) (st : Session) : Except Fault (List Char) :=
  match layoutDirectory fl st with
  | .error e => .error e
  | .ok st1 => printDir fl env st1

/-- What `main` does for one directory argument once its members are read: collect,
sort, lay out, print.  The result is what `printDir` writes; the line `Stat error`
that `dopath` prints for a member whose `lstat` fails is not part of it. -/
def listDirectory (fl : Flags) (env : Env) (members : List Member) (statbuf0 : Stat) :
    Except Fault (List Char) :=
  match dopath fl env members statbuf0 initializeFiles with
  | .error e => .error e
  | .ok st => renderDirectory fl env (sortFiles st)

/-! ## Reference definitions taken from the specification -/

/-- The type character of the permission string as the specification words it:
`d`, `l`, `p`, `c`, `b`, `s` for a directory, symbolic link, FIFO, character
device, block device, socket, and `-` for everything else. -/
def fileTypeChar (mode : Nat) : Char :=
  if mode &&& S_IFMT = S_IFDIR then 'd'
  else if mode &&& S_IFMT = S_IFLNK then 'l'
  else if mode &&& S_IFMT = S_IFIFO then 'p'
  else if mode &&& S_IFMT = S_IFCHR then 'c'
  else if mode &&& S_IFMT = S_IFBLK then 'b'
  else if mode &&& S_IFMT = S_IFSOCK then 's'
  else '-'

/-- The permission character at position `i + 1` of the permission string, for
`i = 0 .. 8`: positions run owner, group, other, each with read, write, execute;
the bit tested is bit `8 - i` of the mode, and the letter shown for a set bit is
`r`, `w` or `x` according to `i % 3`. -/
def permissionChar (mode i : Nat) : Char :=
  if mode.testBit (8 - i) then
    (if i % 3 = 0 then 'r' else if i % 3 = 1 then 'w' else 'x')
  else '-'

/-- The visibility rule as the specification states it: a member is listed unless
neither `-a` nor `-A` is given and its name begins with a dot, and unless `-A` is
given and its name is exactly `.` or `..`. -/
def listedSpec (aflag Aflag : Bool) (d_name : List Char) : Prop :=
  ¬ (aflag = false ∧ Aflag = false ∧ d_name.head? = some '.') ∧
  ¬ (Aflag = true ∧ (d_name = ['.'] ∨ d_name = ['.', '.']))

instance (aflag Aflag : Bool) (d_name : List Char) :
    Decidable (listedSpec aflag Aflag d_name) :=
  inferInstanceAs (Decidable
    (¬ (aflag = false ∧ Aflag = false ∧ d_name.head? = some '.') ∧
     ¬ (Aflag = true ∧ (d_name = ['.'] ∨ d_name = ['.', '.']))))

/-! ## Concrete inputs used to instantiate the theorems -/

/-- An environment with fixed answers for the external lookups. -/
def sampleEnv : Env :=
  { getpwuid := fun _ => some "user".toList
    getgrgid := fun _ => some "group".toList
    now := 0
    strftime := fun _ _ => "Jan  1 00:00".toList }

/-- The `struct stat` of a regular file with mode `0644`. -/
def sampleStat : Stat :=
  { st_mode := 0o100644, st_ino := 1, st_uid := 0, st_gid := 0, st_size := 0,
    st_mtime := 0, st_nlink := 1, st_blocks := 8 }

/-- An entry as `dopath` stores it without decoration: the cached width is the
length of the name. -/
def sampleFile (name : String) (inode blocks : Nat) : FileInfo :=
  { name := name.toList, size := name.toList.length, inode := inode, user := 0, group := 0,
    size_bytes := 0, time := 0, links := 1, mode := 0o100644, blocks := blocks }

/-- The state after `initializeFiles` and a `dopath` that stored the given entries
and left the given running maxima. -/
def sampleSession (files : List FileInfo) (max_size blocks_indent inode_max : Nat) : Session :=
  { initializeFiles with
    files := files
    max_size := max_size
    blocks_indent := blocks_indent
    col_indent_inode_max := inode_max }

/-- The effect of the inner loop of `sortFiles` on the records in front of index `j`,
listed from `files[j-1]` down to `files[0]`: record `x` moves past every record it
sorts before and stops at the first one it does not. -/
def insertFromRight (x : FileInfo) : List FileInfo → List FileInfo
  | [] => [x]
  | y :: r => if strcmp x.name y.name < 0 then y :: insertFromRight x r else x :: y :: r

/-- The order that `sortFiles` establishes: names ascending for `strcmp`. -/
def NamesAscending (files : List FileInfo) : Prop :=
  files.Pairwise (fun f g => strcmp f.name g.name ≤ 0)

/-- The entries in render order: the stored array, read backwards under `-r`. -/
def renderOrder (fl : Flags) (st : Session) : List FileInfo :=
  if fl.rflag then st.files.reverse else st.files

/-! ## The column layout as the specification describes it -/

/-- The display width of the entry at flat position `p` of the render order (zero
past the last entry). -/
def sizeAt (fl : Flags) (st : Session) (p : Nat) : Nat :=
  match st.files[renderPos fl st.total_files p]? with
  | some f => f.size
  | none => 0

/-- The inode digit count of the entry at flat position `p` of the render order. -/
def inodeDigitsAt (fl : Flags) (st : Session) (p : Nat) : Nat :=
  match st.files[renderPos fl st.total_files p]? with
  | some f => countDigits f.inode
  | none => 0

/-- The largest value of `g` over the flat positions that the column-major layout
with `rows` rows assigns to column `j`, the positions `p < total` with
`p / rows = j`; zero for a column without entries. -/
def columnMax (g : Nat → Nat) (total rows j : Nat) : Nat :=
  ((List.range total).filter (fun p => p / rows = j)).foldr (fun p m => max (g p) m) 0

/-- The name width of column `j` in the layout with `rows` rows. -/
def columnWidth (fl : Flags) (st : Session) (rows j : Nat) : Nat :=
  columnMax (sizeAt fl st) st.total_files rows j

/-- The inode digit width of column `j` in the layout with `rows` rows. -/
def columnInodeWidth (fl : Flags) (st : Session) (rows j : Nat) : Nat :=
  columnMax (inodeDigitsAt fl st) st.total_files rows j

/-- The sum over the first `n` columns of the column width and the enabled
decorations: with `-s` the block field (`blocks_indent + 1`), with `-i` the inode
field of the column (its inode digit width plus one). -/
def columnsWidth (fl : Flags) (st : Session) (rows : Nat) : Nat → Nat
  | 0 => 0
  | j + 1 =>
    columnsWidth fl st rows j + columnWidth fl st rows j
      + (if fl.sflag then st.blocks_indent + 1 else 0)
      + (if fl.iflag then columnInodeWidth fl st rows j + 1 else 0)

/-- The total row width of the layout with `c` columns: `rows = ceil(N / c)`, the
sum of the column widths, and two spaces between neighbouring columns. -/
def layoutWidth (fl : Flags) (st : Session) (c : Nat) : Int :=
  (columnsWidth fl st (ceilDiv st.total_files c) c : Nat) + ((c : Int) - 1) * 2

/-- The layout with `c` columns fits the terminal: its row width is below
`win_cols`. -/
def Fits (fl : Flags) (st : Session) (c : Nat) : Prop :=
  layoutWidth fl st c < fl.win_cols

instance (fl : Flags) (st : Session) (c : Nat) : Decidable (Fits fl st c) :=
  inferInstanceAs (Decidable (layoutWidth fl st c < fl.win_cols))

/-- A column count that the column-major layout can realise without an empty
column: `c = ceil(N / ceil(N / c))`. -/
def Achievable (total c : Nat) : Prop :=
  ceilDiv total (ceilDiv total c) = c

instance (total c : Nat) : Decidable (Achievable total c) :=
  inferInstanceAs (Decidable (ceilDiv total (ceilDiv total c) = c))

/-- The value of `column_count` after `calculateColumnCount`, when the run ends
without a fault. -/
def chosenColumnCount (fl : Flags) (st : Session) : Option Nat :=
  match calculateColumnCount fl st with
  | .ok st1 => some st1.column_count
  | .error _ => none

/-- Five entries whose names are one character wide. -/
def fiveShortNames : Session :=
  sampleSession
    [sampleFile "a" 1 8, sampleFile "b" 2 8, sampleFile "c" 3 8, sampleFile "d" 4 8,
     sampleFile "e" 5 8] 1 1 1

/-- The globals that `calculateColumnCount` only reads keep their values from `st`
to `st1`. -/
def Frame (st st1 : Session) : Prop :=
  st1.files = st.files ∧ st1.max_size = st.max_size ∧
  st1.blocks_indent = st.blocks_indent ∧
  st1.col_indent_inode_max = st.col_indent_inode_max ∧
  st1.total_blocks = st.total_blocks ∧ st1.name_indent = st.name_indent ∧
  st1.user_indent = st.user_indent ∧ st1.group_indent = st.group_indent ∧
  st1.size_indent = st.size_indent ∧ st1.links_indent = st.links_indent

/-- Two entries with one-character names and one-digit block counts. -/
def twoShortNames : Session :=
  sampleSession [sampleFile "a" 1 8, sampleFile "b" 2 8] 1 1 1

/-- Five entries whose names have the widths 3, 5, 2, 8 and 1. -/
def fiveMixedNames : Session :=
  sampleSession
    [sampleFile "aaa" 1 8, sampleFile "bbbbb" 2 8, sampleFile "cc" 3 8,
     sampleFile "dddddddd" 4 8, sampleFile "e" 5 8] 8 1 1

/-- The fields of a long-format line in front of the timestamp. -/
def longFields (fl : Flags) (env : Env) (st : Session) (f : FileInfo) : List Char :=
  (if fl.iflag then padLeft st.col_indent_inode_max (decimal f.inode) ++ [' '] else [])
  ++ (if fl.sflag then padLeft st.blocks_indent (decimal f.blocks) ++ [' '] else [])
  ++ convertMode f.mode ++ [' '] ++ padLeft st.links_indent (decimal f.links) ++ [' ']
  ++ (if !fl.gflag then
        (if fl.nflag then padLeft st.user_indent (decimal f.user) ++ [' ']
         else padLeft st.user_indent (env.pw_name f.user) ++ [' '])
      else [])
  ++ (if !fl.Gflag && !fl.oflag then
        (if fl.nflag then padLeft st.group_indent (decimal f.group) ++ [' ']
         else padLeft st.group_indent (env.gr_name f.group) ++ [' '])
      else [])
  ++ padLeft st.size_indent (decimal f.size_bytes) ++ [' ']

/-- The fault a run ends in, if it ends in one. -/
def faultOf {α : Type} (r : Except Fault α) : Option Fault :=
  match r with
  | .error e => some e
  | .ok _ => none

/-- A directory member for which `lstat` succeeds with `sampleStat`. -/
def sampleMember (name : String) : Member :=
  { d_name := name.toList, stat := some sampleStat }

/-- A directory member with the given inode number. -/
def sampleMemberInode (name : String) (inode : Nat) : Member :=
  { d_name := name.toList, stat := some { sampleStat with st_ino := inode } }

/-- Four entries with one-character names whose inode numbers have 1, 7, 1 and 1
digits. -/
def fourInodes : Session :=
  sampleSession
    [sampleFile "a" 1 8, sampleFile "b" 1000000 8, sampleFile "c" 2 8, sampleFile "d" 3 8]
    1 1 7

/-- The accumulators `col_indent_inode[0 .. n-1]` after `calculateColumnCount`. -/
def inodeAccumulators (fl : Flags) (st : Session) (n : Nat) : Option (List Nat) :=
  match calculateColumnCount fl st with
  | .ok st1 => some ((List.range n).map st1.col_indent_inode)
  | .error _ => none

/-- What the grid shows for an entry when nothing is padded after the name: the
inode field under `-i`, the block field under `-s`, and the name. -/
def plainCell (fl : Flags) (st : Session) (f : FileInfo) : List Char :=
  (if fl.iflag then padLeft st.col_indent_inode_max (decimal f.inode) ++ [' '] else [])
  ++ (if fl.sflag then
        blankField ((st.blocks_indent : Int) - (countDigits f.blocks : Int))
          ++ decimal f.blocks ++ [' ']
      else [])
  ++ f.name

/-- The cells of one row, neighbours separated by two spaces. -/
def joinCells : List (List Char) → List Char
  | [] => []
  | [cell] => cell
  | cell :: next :: rest => cell ++ [' ', ' '] ++ joinCells (next :: rest)

/-- The flat positions that the nested loops of the grid branch of `printDir` find in
range, in the order the loops reach them: for every row `i` and every column `j` the
position `i + j * column_len`, kept when it is below `total`. -/
def gridPositions (total column_count column_len : Nat) : List Nat :=
  ((List.range column_len).map
    (fun i => (List.range column_count).filterMap
      (fun j => if i + j * column_len < total then some (i + j * column_len) else none))).flatten

/-- The in-range flat positions of column `j`, top to bottom. -/
def columnPositions (total column_len j : Nat) : List Nat :=
  (List.range column_len).filterMap
    (fun i => if i + j * column_len < total then some (i + j * column_len) else none)

/-- Two entries with names three characters wide. -/
def twoWideNames : Session :=
  sampleSession [sampleFile "abc" 1 8, sampleFile "abd" 2 8] 3 1 1

/-- An environment in which no numeric user id has a passwd entry: `getpwuid`
returns `NULL` for every id. -/
def unknownOwnerEnv : Env :=
  { sampleEnv with getpwuid := fun _ => none }

/-- Both lookups that `dopath` makes for an entry without `-n` find an entry for
its id. -/
def resolves (env : Env) (f : FileInfo) : Bool :=
  (env.getgrgid f.group).isSome && (env.getpwuid f.user).isSome

/-- The entries the specification expects from a run over the members of a
directory: one record, in `readdir` order, for every member that is listed, none for
any other member.  A member whose `lstat` fails is recorded with the `struct stat` of
the listed member before it. -/
def listedEntries (fl : Flags) : List Member → Stat → List FileInfo
  | [], _ => []
  | m :: rest, statbuf =>
    if listedSpec fl.aflag fl.Aflag m.d_name then
      makeEntry fl m.d_name (m.stat.getD statbuf)
        :: listedEntries fl rest (m.stat.getD statbuf)
    else listedEntries fl rest statbuf

/-- The members `.`, `..`, `.profile` and `notes` of a directory, in `readdir`
order. -/
def dotMembers : List Member :=
  [sampleMember ".", sampleMember "..", sampleMember ".profile", sampleMember "notes"]

/-- The names of the entries a run of `dopath` has stored, when it returns. -/
def collectedNames (r : Except Fault Session) : Option (List String) :=
  match r with
  | .ok st => some (st.files.map (fun f => String.mk f.name))
  | .error _ => none

/-- What the grid prints for the slot in row `i`, column `j`: the cell of the entry
in the slot, if there is one, padded to the width of column `j` unless the terminal
width is zero; then the separator, a newline after the last column of every row but
the last and two spaces after every other column. -/
def slotText (fl : Flags) (st : Session) (column_len i j : Nat) (slot : Option FileInfo) :
    List Char :=
  (match slot with
   | some f =>
     plainCell fl st f ++
       (if fl.win_cols = 0 then []
        else blankField ((st.col_indent j : Int) - (f.name.length : Int)))
   | none => [])
  ++ (if j + 1 = st.column_count ∧ i + 1 < column_len then ['\n']
      else if j + 1 < st.column_count then [' ', ' ']
      else [])

/-- The grid that lists a sequence of entries column by column: with
`rows = ceil(total_files / column_count)`, the slot in row `i`, column `j` holds
element `i + j * rows` of the sequence; the slots are printed row by row. -/
def gridListing (fl : Flags) (st : Session) (order : List FileInfo) : List Char :=
  ((List.range (ceilDiv st.total_files st.column_count)).map (fun i =>
    ((List.range st.column_count).map (fun j =>
      slotText fl st (ceilDiv st.total_files st.column_count) i j
        order[i + j * ceilDiv st.total_files st.column_count]?)).flatten)).flatten

/-- A grid of `columns` columns and `rows` rows over a sequence, read column by
column, top to bottom. -/
def readByColumns {α : Type} (order : List α) (columns rows : Nat) : List α :=
  ((List.range columns).map (fun j =>
    (List.range rows).filterMap (fun i => order[i + j * rows]?))).flatten

/-- The same grid read row by row, left to right: the order in which the nested
loops of `printDir` print its slots. -/
def readByRows {α : Type} (order : List α) (columns rows : Nat) : List α :=
  ((List.range rows).map (fun i =>
    (List.range columns).filterMap (fun j => order[i + j * rows]?))).flatten

/-- The long listing of a sequence of entries: one line for every entry, in the order
of the sequence, each line ending in the name of its entry, the lines separated by
newlines. -/
def longListing (fl : Flags) (env : Env) (st : Session) (order : List FileInfo) : List Char :=
  ((List.range order.length).map (fun i =>
    match order[i]? with
    | some f =>
      longFields fl env st f ++ env.strftime (timeFormat env.now f.time) f.time
        ++ [' '] ++ f.name ++ (if i + 1 < order.length then ['\n'] else [])
    | none => [])).flatten

/-- Five entries laid out in three columns of the widths 5, 8 and 1. -/
def fiveMixedLaidOut : Session :=
  { fiveMixedNames with
    column_count := 3
    col_indent := fun j => if j = 0 then 5 else if j = 1 then 8 else if j = 2 then 1 else 0 }

/-- Three entries named `a`, `b` and `c`, in sorted order. -/
def threeSorted : Session :=
  sampleSession [sampleFile "a" 1 8, sampleFile "b" 2 8, sampleFile "c" 3 8] 1 1 1

/-- The text of a run that returns. -/
def printedText (r : Except Fault (List Char)) : Option String :=
  match r with
  | .ok text => some (String.mk text)
  | .error _ => none

/-! # Properties -/

theorem countDigitsFuel_stable (fuel : Nat) :
    ∀ n m : Nat, n ≤ fuel → n ≤ m → countDigitsFuel fuel n = countDigitsFuel m n := by
  induction fuel with
  | zero =>
    intro n m hn _
    have h0 : n = 0 := by omega
    subst h0
    cases m with
    | zero => rfl
    | succ m => simp [countDigitsFuel]
  | succ fuel ih =>
    intro n m hn hm
    cases m with
    | zero =>
      have h0 : n = 0 := by omega
      subst h0
      simp [countDigitsFuel]
    | succ m =>
      simp only [countDigitsFuel]
      by_cases h : n < 10
      · simp [h]
      · simp only [h, if_false]
        rw [ih (n / 10) m (by omega) (by omega)]

theorem countDigits_unfold (num : Nat) :
    countDigits num = if num < 10 then 1 else 1 + countDigits (num / 10) := by
  unfold countDigits
  cases num with
  | zero => simp [countDigitsFuel]
  | succ n =>
    simp only [countDigitsFuel]
    by_cases h : n + 1 < 10
    · simp [h]
    · simp only [h, if_false]
      rw [countDigitsFuel_stable n ((n + 1) / 10) ((n + 1) / 10) (by omega) (le_refl _)]

theorem countDigits_pos (num : Nat) : 1 ≤ countDigits num := by
  rw [countDigits_unfold]
  split <;> omega

/-- C5. `countDigits n` is the number of decimal digits of `n`: it is `1` when `n < 10`
(the case `k = 1`, zero included) and `k` when `10^(k-1) ≤ n < 10^k`. -/
theorem countDigits_decimal_digits (n k : Nat) (hk : 0 < k)
    (hlo : k = 1 ∨ 10 ^ (k - 1) ≤ n) (hhi : n < 10 ^ k) : countDigits n = k := by
  induction k generalizing n with
  | zero => omega
  | succ k ih =>
    rw [countDigits_unfold]
    by_cases h : n < 10
    · simp only [h, if_true]
      rcases hlo with h1 | h2
      · omega
      · cases k with
        | zero => rfl
        | succ k =>
          have : 10 ^ 1 ≤ 10 ^ (k + 1 + 1 - 1) := Nat.pow_le_pow_right (by norm_num) (by omega)
          omega
    · simp only [h, if_false]
      cases k with
      | zero => simp at hhi; omega
      | succ k =>
        have hlo2 : 10 ^ (k + 1) ≤ n := by
          rcases hlo with h1 | h2
          · omega
          · simpa using h2
        have h3 : 10 ^ (k + 1 - 1) ≤ n / 10 := by
          rw [Nat.le_div_iff_mul_le (by norm_num)]
          simp only [Nat.add_sub_cancel]
          rw [pow_succ] at hlo2
          exact hlo2
        have h4 : n / 10 < 10 ^ (k + 1) := by
          rw [Nat.div_lt_iff_lt_mul (by norm_num)]
          rw [pow_succ] at hhi
          exact hhi
        rw [ih (n / 10) (by omega) (Or.inr h3) h4]
        omega

theorem countDigits_decimal_digits_witness :
    countDigits 0 = 1 ∧ countDigits 999 = 3 ∧ countDigits 1000 = 4 :=
  ⟨countDigits_decimal_digits 0 1 (by decide) (Or.inl rfl) (by decide),
   countDigits_decimal_digits 999 3 (by decide) (Or.inr (by decide)) (by decide),
   countDigits_decimal_digits 1000 4 (by decide) (Or.inr (by decide)) (by decide)⟩

theorem and_two_pow_ne_zero (m k : Nat) : m &&& 2 ^ k ≠ 0 ↔ m.testBit k = true := by
  rw [Nat.and_two_pow]
  cases h : m.testBit k <;> simp

/-- C10. `convertMode` writes exactly ten characters: the type character of the mode
followed, for owner, group and other in that order, by `r`, `w`, `x` for the read,
write and execute bits that are set and `-` for those that are not. -/
theorem convertMode_ten_chars (mode : Nat) :
    (convertMode mode).length = 10 ∧
    convertMode mode = fileTypeChar mode :: (List.range 9).map (permissionChar mode) := by
  refine ⟨rfl, ?_⟩
  have h8 : mode &&& 256 ≠ 0 ↔ mode.testBit 8 = true := and_two_pow_ne_zero mode 8
  have h7 : mode &&& 128 ≠ 0 ↔ mode.testBit 7 = true := and_two_pow_ne_zero mode 7
  have h6 : mode &&& 64 ≠ 0 ↔ mode.testBit 6 = true := and_two_pow_ne_zero mode 6
  have h5 : mode &&& 32 ≠ 0 ↔ mode.testBit 5 = true := and_two_pow_ne_zero mode 5
  have h4 : mode &&& 16 ≠ 0 ↔ mode.testBit 4 = true := and_two_pow_ne_zero mode 4
  have h3 : mode &&& 8 ≠ 0 ↔ mode.testBit 3 = true := and_two_pow_ne_zero mode 3
  have h2 : mode &&& 4 ≠ 0 ↔ mode.testBit 2 = true := and_two_pow_ne_zero mode 2
  have h1 : mode &&& 2 ≠ 0 ↔ mode.testBit 1 = true := and_two_pow_ne_zero mode 1
  have h0 : mode &&& 1 ≠ 0 ↔ mode.testBit 0 = true := and_two_pow_ne_zero mode 0
  simp only [convertMode, fileTypeChar, permissionChar, S_IRUSR, S_IWUSR, S_IXUSR, S_IRGRP,
    S_IWGRP, S_IXGRP, S_IROTH, S_IWOTH, S_IXOTH, List.range, List.range.loop, List.map,
    h8, h7, h6, h5, h4, h3, h2, h1, h0]
  norm_num

theorem strcmp_eq_zero_iff (a b : List Char) (ha : IsCString a) (hb : IsCString b) :
    strcmp a b = 0 ↔ a = b := by
  induction a generalizing b with
  | nil =>
    cases b with
    | nil => simp [strcmp]
    | cons y bs =>
      have hy : y.toNat ≠ 0 := hb y (List.mem_cons_self _ _)
      simp [strcmp]
      omega
  | cons x as ih =>
    have hx : x.toNat ≠ 0 := ha x (List.mem_cons_self _ _)
    cases b with
    | nil =>
      simp [strcmp]
      omega
    | cons y bs =>
      have hy : y.toNat ≠ 0 := hb y (List.mem_cons_self _ _)
      have has : IsCString as := fun c hc => ha c (List.mem_cons_of_mem _ hc)
      have hbs : IsCString bs := fun c hc => hb c (List.mem_cons_of_mem _ hc)
      simp only [strcmp]
      by_cases hxy : x = y
      · subst hxy
        simp [hx, ih bs has hbs]
      · simp only [hxy, if_false, List.cons.injEq, false_and, iff_false]
        intro h
        apply hxy
        apply Char.ext
        apply UInt32.ext
        have : x.toNat = y.toNat := by omega
        simpa [Char.toNat] using this

theorem skipped_eq_false_iff (fl : Flags) (d_name : List Char) (hname : IsCString d_name) :
    skipped fl d_name = false ↔ listedSpec fl.aflag fl.Aflag d_name := by
  have h1 : strcmp d_name ['.'] = 0 ↔ d_name = ['.'] :=
    strcmp_eq_zero_iff _ _ hname (by decide)
  have h2 : strcmp d_name ['.', '.'] = 0 ↔ d_name = ['.', '.'] :=
    strcmp_eq_zero_iff _ _ hname (by decide)
  unfold skipped listedSpec
  cases fl.aflag <;> cases fl.Aflag <;> simp [h1, h2]

theorem storeEntry_files (fl : Flags) (d_name : List Char) (statbuf : Stat)
    (gw uw : Nat) (st : Session) :
    (storeEntry fl d_name statbuf gw uw st).files
      = st.files ++ [makeEntry fl d_name statbuf] :=
  rfl

/-- A pass through the loop body that does not fault is a `storeEntry`. -/
theorem collectEntry_ok (fl : Flags) (env : Env) (d_name : List Char) (statbuf : Stat)
    (st st1 : Session) (h : collectEntry fl env d_name statbuf st = .ok st1) :
    ∃ gw uw, st1 = storeEntry fl d_name statbuf gw uw st := by
  unfold collectEntry at h
  split at h
  · exact ⟨_, _, (Except.ok.inj h).symm⟩
  · split at h
    · exact ⟨_, _, (Except.ok.inj h).symm⟩
    · cases h

theorem collectEntry_files (fl : Flags) (env : Env) (d_name : List Char) (statbuf : Stat)
    (st st1 : Session) (h : collectEntry fl env d_name statbuf st = .ok st1) :
    st1.files = st.files ++ [makeEntry fl d_name statbuf] := by
  obtain ⟨gw, uw, h1⟩ := collectEntry_ok fl env d_name statbuf st st1 h
  rw [h1, storeEntry_files]

/-- The loop body returns when `-n` is set or both lookups find an entry, and faults
at the null pointer otherwise. -/
theorem collectEntry_returns (fl : Flags) (env : Env) (d_name : List Char) (statbuf : Stat)
    (st : Session) :
    ((fl.nflag = true ∨
        ((env.getgrgid statbuf.st_gid).isSome = true ∧
          (env.getpwuid statbuf.st_uid).isSome = true)) →
      ∃ st1, collectEntry fl env d_name statbuf st = .ok st1) ∧
    (fl.nflag = false →
      ((env.getgrgid statbuf.st_gid).isSome = false ∨
          (env.getpwuid statbuf.st_uid).isSome = false) →
      collectEntry fl env d_name statbuf st = .error .nullPointer) := by
  unfold collectEntry
  constructor
  · intro h
    by_cases hn : fl.nflag = true
    · rw [if_pos hn]
      exact ⟨_, rfl⟩
    · rcases h with h | ⟨hg, hp⟩
      · exact absurd h hn
      · obtain ⟨g, hg1⟩ := Option.isSome_iff_exists.mp hg
        obtain ⟨p, hp1⟩ := Option.isSome_iff_exists.mp hp
        rw [if_neg hn, hg1, hp1]
        exact ⟨_, rfl⟩
  · intro hn h
    simp only [hn]
    cases hg : env.getgrgid statbuf.st_gid with
    | none => rfl
    | some g =>
      cases hp : env.getpwuid statbuf.st_uid with
      | none => rfl
      | some p => simp [hg, hp] at h

theorem char_eq_of_toNat_eq (x y : Char) (h : x.toNat = y.toNat) : x = y := by
  apply Char.ext
  apply UInt32.ext
  simpa [Char.toNat] using h

theorem strcmp_nil_left (c : List Char) : strcmp [] c ≤ 0 := by
  cases c with
  | nil => simp [strcmp]
  | cons z cs => simp [strcmp]

theorem strcmp_swap (a b : List Char) : strcmp b a = - strcmp a b := by
  induction a generalizing b with
  | nil =>
    cases b with
    | nil => simp [strcmp]
    | cons y bs => simp [strcmp]
  | cons x as ih =>
    cases b with
    | nil => simp [strcmp]
    | cons y bs =>
      simp only [strcmp]
      by_cases hxy : x = y
      · subst hxy
        by_cases h0 : x.toNat = 0
        · simp [h0]
        · simp [h0, ih bs]
      · have hyx : ¬ y = x := fun h => hxy h.symm
        simp only [hxy, hyx, if_false]
        omega

theorem strcmp_trans (a b c : List Char) (h1 : strcmp a b ≤ 0) (h2 : strcmp b c ≤ 0) :
    strcmp a c ≤ 0 := by
  induction a generalizing b c with
  | nil => exact strcmp_nil_left c
  | cons x as ih =>
    cases b with
    | nil =>
      simp only [strcmp] at h1
      cases c with
      | nil => simpa [strcmp] using h1
      | cons z cs =>
        simp only [strcmp]
        by_cases hxz : x = z
        · have : x.toNat = 0 := by omega
          subst hxz
          simp [this]
        · simp only [hxz, if_false]
          omega
    | cons y bs =>
      cases c with
      | nil =>
        simp only [strcmp] at h1 h2 ⊢
        by_cases hxy : x = y
        · subst hxy
          exact h2
        · simp only [hxy, if_false] at h1
          omega
      | cons z cs =>
        simp only [strcmp] at h1 h2 ⊢
        by_cases hxy : x = y
        · subst hxy
          by_cases hxz : x = z
          · subst hxz
            by_cases h0 : x.toNat = 0
            · simp [h0]
            · simp only [h0, if_true, if_false] at h1 h2 ⊢
              exact ih bs cs h1 h2
          · simp only [hxz, if_false] at h2 ⊢
            exact h2
        · simp only [hxy, if_false] at h1
          by_cases hyz : y = z
          · subst hyz
            simp only [hxy, if_false]
            exact h1
          · simp only [hyz, if_false] at h2
            by_cases hxz : x = z
            · subst hxz
              exfalso
              apply hxy
              apply char_eq_of_toNat_eq
              omega
            · simp only [hxz, if_false]
              omega

theorem sortInner_append (x : FileInfo) (r post : List FileInfo) :
    sortInner (r.reverse ++ x :: post) r.length = (insertFromRight x r).reverse ++ post := by
  induction r generalizing post with
  | nil => simp [sortInner, insertFromRight]
  | cons y r ih =>
    have hlen : (y :: r).length = r.length + 1 := rfl
    rw [hlen]
    have hshape : (y :: r).reverse ++ x :: post = r.reverse ++ y :: x :: post := by simp
    rw [hshape]
    have hcur : (r.reverse ++ y :: x :: post)[r.length + 1]? = some x := by
      rw [List.getElem?_append_right (by simp)]
      simp
    have hprev : (r.reverse ++ y :: x :: post)[r.length]? = some y := by
      rw [List.getElem?_append_right (by simp)]
      simp
    rw [sortInner, hcur, hprev]
    simp only [insertFromRight]
    by_cases hlt : strcmp x.name y.name < 0
    · simp only [hlt, if_true]
      have hset : ((r.reverse ++ y :: x :: post).set (r.length + 1) y).set r.length x
          = r.reverse ++ x :: y :: post := by
        rw [List.set_append_right _ _ (by simp), List.set_append_right _ _ (by simp)]
        simp
      rw [hset, ih (y :: post)]
      simp
    · simp only [hlt, if_false]
      simp

theorem insertFromRight_perm (x : FileInfo) (r : List FileInfo) :
    (insertFromRight x r).Perm (x :: r) := by
  induction r with
  | nil => simp [insertFromRight]
  | cons y r ih =>
    simp only [insertFromRight]
    split
    · exact ((List.Perm.cons y ih).trans (List.Perm.swap x y r))
    · exact List.Perm.refl _

theorem insertFromRight_length (x : FileInfo) (r : List FileInfo) :
    (insertFromRight x r).length = r.length + 1 := by
  simpa using (insertFromRight_perm x r).length_eq

theorem insertFromRight_descending (x : FileInfo) (r : List FileInfo)
    (h : r.Pairwise (fun f g => strcmp g.name f.name ≤ 0)) :
    (insertFromRight x r).Pairwise (fun f g => strcmp g.name f.name ≤ 0) := by
  induction r with
  | nil => simp [insertFromRight]
  | cons y r ih =>
    rw [List.pairwise_cons] at h
    simp only [insertFromRight]
    by_cases hlt : strcmp x.name y.name < 0
    · simp only [hlt, if_true]
      rw [List.pairwise_cons]
      refine ⟨?_, ih h.2⟩
      intro g hg
      have hmem : g ∈ x :: r := (insertFromRight_perm x r).mem_iff.mp hg
      rcases List.mem_cons.mp hmem with rfl | hgr
      · omega
      · exact h.1 g hgr
    · simp only [hlt, if_false]
      have hyx : strcmp y.name x.name ≤ 0 := by
        rw [strcmp_swap x.name y.name]
        omega
      rw [List.pairwise_cons]
      refine ⟨?_, List.pairwise_cons.mpr h⟩
      intro g hg
      rcases List.mem_cons.mp hg with rfl | hgr
      · exact hyx
      · exact strcmp_trans _ _ _ (h.1 g hgr) hyx

theorem sortOuter_sorted_perm (k : Nat) :
    ∀ pre rest : List FileInfo, rest.length = k → NamesAscending pre →
      NamesAscending (sortOuter k pre.length (pre ++ rest)) ∧
      (sortOuter k pre.length (pre ++ rest)).Perm (pre ++ rest) := by
  induction k with
  | zero =>
    intro pre rest hlen hpre
    have : rest = [] := List.length_eq_zero.mp hlen
    subst this
    simpa [sortOuter] using hpre
  | succ k ih =>
    intro pre rest hlen hpre
    cases rest with
    | nil => simp at hlen
    | cons x post =>
      have hstep : sortInner (pre ++ x :: post) pre.length
          = (insertFromRight x pre.reverse).reverse ++ post := by
        have := sortInner_append x pre.reverse post
        simpa using this
      have hlen2 : ((insertFromRight x pre.reverse).reverse).length = pre.length + 1 := by
        simp [insertFromRight_length]
      have hsorted : NamesAscending (insertFromRight x pre.reverse).reverse := by
        unfold NamesAscending
        rw [List.pairwise_reverse]
        apply insertFromRight_descending
        rw [List.pairwise_reverse]
        exact hpre
      have hperm : ((insertFromRight x pre.reverse).reverse ++ post).Perm (pre ++ x :: post) := by
        have h1 : ((insertFromRight x pre.reverse).reverse).Perm (x :: pre) :=
          (List.reverse_perm _).trans
            ((insertFromRight_perm x pre.reverse).trans
              (List.Perm.cons x (List.reverse_perm pre)))
        have h2 : (x :: pre ++ post).Perm (pre ++ x :: post) := List.perm_middle.symm
        exact (List.Perm.append_right post h1).trans h2
      simp only [sortOuter]
      rw [hstep, ← hlen2]
      have hres := ih (insertFromRight x pre.reverse).reverse post (by simpa using hlen) hsorted
      exact ⟨hres.1, hres.2.trans hperm⟩

/-- C3. `sortFiles` leaves in `files` a permutation of the records it found there
(whole records, none lost or duplicated) whose names ascend in `strcmp` order, and
touches nothing else; the names `b`, `a`, `c` become `a`, `b`, `c`. -/
theorem sortFiles_sorted_perm (st : Session) :
    (sortFiles st).files.Perm st.files ∧
    NamesAscending (sortFiles st).files ∧
    (sortFiles st).total_files = st.total_files ∧
    (sortFiles (sampleSession
        [sampleFile "b" 1 8, sampleFile "a" 2 8, sampleFile "c" 3 8] 1 1 1)).files
      = [sampleFile "a" 2 8, sampleFile "b" 1 8, sampleFile "c" 3 8] := by
  have key : (sortFiles st).files.Perm st.files ∧ NamesAscending (sortFiles st).files := by
    simp only [sortFiles, Session.total_files]
    cases hfiles : st.files with
    | nil => simp [sortOuter, NamesAscending]
    | cons f rest =>
      have h := sortOuter_sorted_perm rest.length [f] rest rfl (by simp [NamesAscending])
      simp only [List.length_cons, Nat.add_sub_cancel]
      simpa using ⟨h.2, h.1⟩
  refine ⟨key.1, key.2, ?_, by decide⟩
  simpa [Session.total_files] using key.1.length_eq

theorem ceilDiv_le_iff (n r c : Nat) (hr : 0 < r) : ceilDiv n r ≤ c ↔ n ≤ r * c := by
  unfold ceilDiv
  have hdm := Nat.div_add_mod n r
  have hm := Nat.mod_lt n hr
  by_cases h0 : n % r > 0
  · simp only [h0, if_true]
    constructor
    · intro h
      have : r * (n / r + 1) ≤ r * c := Nat.mul_le_mul_left r h
      rw [Nat.mul_add] at this
      omega
    · intro h
      have : r * (n / r) < r * c := by omega
      have := Nat.lt_of_mul_lt_mul_left this
      omega
  · simp only [h0, if_false, Nat.add_zero]
    have hz : n % r = 0 := by omega
    constructor
    · intro h
      have : r * (n / r) ≤ r * c := Nat.mul_le_mul_left r h
      omega
    · intro h
      have : r * (n / r) ≤ r * c := by omega
      exact Nat.le_of_mul_le_mul_left this hr

theorem le_mul_ceilDiv (n c : Nat) (hc : 0 < c) : n ≤ c * ceilDiv n c :=
  (ceilDiv_le_iff n c (ceilDiv n c) hc).mp (le_refl _)

theorem ceilDiv_pos (n c : Nat) (hn : 0 < n) (hc : 0 < c) : 0 < ceilDiv n c := by
  by_contra h
  have h0 : ceilDiv n c ≤ 0 := by omega
  have := (ceilDiv_le_iff n c 0 hc).mp h0
  omega

theorem ceilDiv_le_self (n c : Nat) (hc : 0 < c) : ceilDiv n c ≤ n := by
  rw [ceilDiv_le_iff n c n hc]
  exact Nat.le_mul_of_pos_left n hc

theorem ceilDiv_anti (n c d : Nat) (hc : 0 < c) (hcd : c ≤ d) : ceilDiv n d ≤ ceilDiv n c := by
  rw [ceilDiv_le_iff n d _ (by omega)]
  exact (le_mul_ceilDiv n c hc).trans (Nat.mul_le_mul_right _ hcd)

/-- The correction step of the search: with `r = ceil(n/c)` the count `ceil(n/r)` is at
most `c`, at least one, and has the same row count `r`. -/
theorem ceilDiv_correction (n c : Nat) (hn : 0 < n) (hc : 0 < c) :
    ceilDiv n (ceilDiv n c) ≤ c ∧ 0 < ceilDiv n (ceilDiv n c) ∧
    ceilDiv n (ceilDiv n (ceilDiv n c)) = ceilDiv n c := by
  have hr : 0 < ceilDiv n c := ceilDiv_pos n c hn hc
  have h1 : ceilDiv n (ceilDiv n c) ≤ c := by
    rw [ceilDiv_le_iff n _ c hr, Nat.mul_comm]
    exact le_mul_ceilDiv n c hc
  have h2 : 0 < ceilDiv n (ceilDiv n c) := ceilDiv_pos n _ hn hr
  refine ⟨h1, h2, ?_⟩
  apply le_antisymm
  · rw [ceilDiv_le_iff n _ _ h2, Nat.mul_comm]
    exact le_mul_ceilDiv n _ hr
  · exact ceilDiv_anti n _ c h2 h1

theorem ceilDiv_of_le (n c : Nat) (hn : 0 < n) (hc : n ≤ c) : ceilDiv n c = 1 := by
  apply le_antisymm
  · rw [ceilDiv_le_iff n c 1 (by omega)]
    omega
  · exact ceilDiv_pos n c hn (by omega)

theorem ceilDiv_one (n : Nat) : ceilDiv n 1 = n := by
  simp [ceilDiv, Nat.mod_one]

theorem renderOrder_length (fl : Flags) (st : Session) :
    (renderOrder fl st).length = st.total_files := by
  unfold renderOrder Session.total_files
  split <;> simp

theorem renderOrder_getElem? (fl : Flags) (st : Session) (p : Nat) (hp : p < st.total_files) :
    st.files[renderPos fl st.total_files p]? = (renderOrder fl st)[p]? := by
  unfold renderOrder renderPos
  unfold Session.total_files at *
  by_cases hr : fl.rflag = true
  · simp only [hr, if_true]
    rw [List.getElem?_reverse hp]
  · simp [hr]

theorem filterMap_range_getElem? {α : Type} (X : List α) (n : Nat) (hn : n ≤ X.length) :
    (List.range n).filterMap (fun i => X[i]?) = X.take n := by
  induction n with
  | zero => simp
  | succ n ih =>
    rw [List.range_succ, List.filterMap_append, ih (by omega), List.take_succ]
    have : X[n]? = some (X[n]) := List.getElem?_eq_getElem (by omega)
    simp [this]

theorem flatten_columns {α : Type} (X : List α) (L c : Nat) :
    ((List.range c).map (fun j => (X.drop (j * L)).take L)).flatten = X.take (c * L) := by
  induction c with
  | zero => simp
  | succ c ih =>
    rw [List.range_succ, List.map_append, List.flatten_append, ih]
    simp only [List.map_cons, List.map_nil, List.flatten_cons, List.flatten_nil, List.append_nil]
    rw [Nat.succ_mul, List.take_add]

theorem frame_refl (st : Session) : Frame st st :=
  ⟨rfl, rfl, rfl, rfl, rfl, rfl, rfl, rfl, rfl, rfl⟩

theorem frame_trans {a b c : Session} (h1 : Frame a b) (h2 : Frame b c) : Frame a c := by
  obtain ⟨a1, a2, a3, a4, a5, a6, a7, a8, a9, a10⟩ := h1
  obtain ⟨b1, b2, b3, b4, b5, b6, b7, b8, b9, b10⟩ := h2
  exact ⟨b1.trans a1, b2.trans a2, b3.trans a3, b4.trans a4, b5.trans a5, b6.trans a6,
    b7.trans a7, b8.trans a8, b9.trans a9, b10.trans a10⟩

theorem frame_total_files {st st1 : Session} (h : Frame st st1) :
    st1.total_files = st.total_files := by
  unfold Session.total_files
  rw [h.1]

theorem sizeAt_frame (fl : Flags) {st st1 : Session} (h : Frame st st1) (p : Nat) :
    sizeAt fl st1 p = sizeAt fl st p := by
  unfold sizeAt
  rw [frame_total_files h, h.1]

theorem foldr_max_ge (g : Nat → Nat) (ps : List Nat) (p : Nat) (hp : p ∈ ps) :
    g p ≤ ps.foldr (fun p m => max (g p) m) 0 := by
  induction ps with
  | nil => simp at hp
  | cons q qs ih =>
    simp only [List.foldr_cons]
    rcases List.mem_cons.mp hp with rfl | h
    · exact le_max_left _ _
    · exact (ih h).trans (le_max_right _ _)

theorem foldr_max_attained (g : Nat → Nat) (ps : List Nat) :
    ps.foldr (fun p m => max (g p) m) 0 = 0 ∨
    ∃ p ∈ ps, g p = ps.foldr (fun p m => max (g p) m) 0 := by
  induction ps with
  | nil => left; rfl
  | cons q qs ih =>
    simp only [List.foldr_cons]
    by_cases hq : qs.foldr (fun p m => max (g p) m) 0 ≤ g q
    · right
      exact ⟨q, List.mem_cons_self _ _, (max_eq_left hq).symm⟩
    · have hmax : max (g q) (qs.foldr (fun p m => max (g p) m) 0)
          = qs.foldr (fun p m => max (g p) m) 0 := max_eq_right (by omega)
      rw [hmax]
      rcases ih with h0 | ⟨p, hp, hpe⟩
      · left; exact h0
      · right
        exact ⟨p, List.mem_cons_of_mem _ hp, hpe⟩

theorem columnMax_ge (g : Nat → Nat) (total rows j p : Nat) (hp : p < total)
    (hj : p / rows = j) : g p ≤ columnMax g total rows j := by
  unfold columnMax
  apply foldr_max_ge
  simp [List.mem_filter, hp, hj]

theorem columnMax_attained (g : Nat → Nat) (total rows j : Nat) :
    columnMax g total rows j = 0 ∨
    ∃ p, p < total ∧ p / rows = j ∧ g p = columnMax g total rows j := by
  unfold columnMax
  rcases foldr_max_attained g ((List.range total).filter (fun p => p / rows = j)) with h | h
  · left; exact h
  · right
    obtain ⟨p, hp, hpe⟩ := h
    simp only [List.mem_filter, List.mem_range, decide_eq_true_eq] at hp
    exact ⟨p, hp.1, hp.2, hpe⟩

theorem columnMax_unique (g : Nat → Nat) (total rows j v : Nat)
    (hge : ∀ p, p < total → p / rows = j → g p ≤ v)
    (hatt : v = 0 ∨ ∃ p, p < total ∧ p / rows = j ∧ g p = v) :
    v = columnMax g total rows j := by
  apply le_antisymm
  · rcases hatt with h0 | ⟨p, hp, hj, hpe⟩
    · omega
    · rw [← hpe]
      exact columnMax_ge g total rows j p hp hj
  · rcases columnMax_attained g total rows j with h0 | ⟨p, hp, hj, hpe⟩
    · omega
    · rw [← hpe]
      exact hge p hp hj

theorem columnMax_empty (g : Nat → Nat) (total rows j : Nat)
    (h : ∀ p, p < total → p / rows ≠ j) : columnMax g total rows j = 0 := by
  rcases columnMax_attained g total rows j with h0 | ⟨p, hp, hj, _⟩
  · exact h0
  · exact absurd hj (h p hp)

theorem renderPos_lt (fl : Flags) (total i : Nat) (hi : i < total) :
    renderPos fl total i < total := by
  unfold renderPos
  split <;> omega

theorem accumulateEntry_ok (fl : Flags) (rs i : Nat) (st : Session)
    (hi : i < st.total_files) (hrs : 0 < rs) (hb : i / rs < COL_MAX) :
    ∃ st1, accumulateEntry fl rs i st = .ok st1 ∧ Frame st st1 ∧
      st1.column_count = st.column_count ∧
      ∀ j, st1.col_indent j =
        if j = i / rs then max (st.col_indent j) (sizeAt fl st i) else st.col_indent j := by
  have hpos : renderPos fl st.total_files i < st.files.length :=
    renderPos_lt fl st.total_files i hi
  have hget : st.files[renderPos fl st.total_files i]?
      = some (st.files[renderPos fl st.total_files i]) := List.getElem?_eq_getElem hpos
  have hrs0 : ¬ rs = 0 := by omega
  have hb0 : ¬ COL_MAX ≤ i / rs := by omega
  unfold accumulateEntry
  rw [hget]
  simp only [hrs0, hb0, if_false]
  refine ⟨_, rfl, ⟨rfl, rfl, rfl, rfl, rfl, rfl, rfl, rfl, rfl, rfl⟩, rfl, ?_⟩
  intro j
  simp only [sizeAt, hget]
  by_cases hj : j = i / rs
  · subst hj
    simp only [if_true]
    split
    · simp only [setAt, if_true]
      omega
    · omega
  · simp only [hj, if_false]
    split
    · simp [setAt, hj]
    · rfl

theorem accumulateLoop_ok (fl : Flags) (rs : Nat) (hrs : 0 < rs) (k : Nat) :
    ∀ (i : Nat) (st : Session), i + k = st.total_files →
      (∀ p, p < st.total_files → p / rs < COL_MAX) →
      ∃ st1, accumulateLoop fl rs k i st = .ok st1 ∧ Frame st st1 ∧
        st1.column_count = st.column_count ∧
        ∀ j, st.col_indent j ≤ st1.col_indent j ∧
          (∀ p, i ≤ p → p < st.total_files → p / rs = j → sizeAt fl st p ≤ st1.col_indent j) ∧
          (st1.col_indent j = st.col_indent j ∨
            ∃ p, i ≤ p ∧ p < st.total_files ∧ p / rs = j ∧ sizeAt fl st p = st1.col_indent j) := by
  induction k with
  | zero =>
    intro i st hik _
    refine ⟨st, rfl, frame_refl st, rfl, ?_⟩
    intro j
    refine ⟨le_refl _, ?_, Or.inl rfl⟩
    intro p hp1 hp2
    omega
  | succ k ih =>
    intro i st hik hb
    obtain ⟨st1, h1, hf1, hc1, hcol1⟩ :=
      accumulateEntry_ok fl rs i st (by omega) hrs (hb i (by omega))
    have htot : st1.total_files = st.total_files := frame_total_files hf1
    obtain ⟨st2, h2, hf2, hc2, hcol2⟩ :=
      ih (i + 1) st1 (by omega) (by rw [htot]; exact hb)
    refine ⟨st2, ?_, frame_trans hf1 hf2, hc2.trans hc1, ?_⟩
    · simp only [accumulateLoop, h1]
      exact h2
    · intro j
      obtain ⟨hle, hge, hatt⟩ := hcol2 j
      have hstep := hcol1 j
      rw [htot] at hge hatt
      refine ⟨?_, ?_, ?_⟩
      · by_cases hj : j = i / rs
        · rw [if_pos hj] at hstep
          have := le_max_left (st.col_indent j) (sizeAt fl st i)
          omega
        · rw [if_neg hj] at hstep
          omega
      · intro p hp1 hp2 hpj
        by_cases hpi : p = i
        · subst hpi
          rw [if_pos hpj.symm] at hstep
          have := le_max_right (st.col_indent j) (sizeAt fl st p)
          omega
        · have := hge p (by omega) hp2 hpj
          rwa [sizeAt_frame fl hf1] at this
      · rcases hatt with heq | ⟨p, hp1, hp2, hpj, hpe⟩
        · by_cases hj : j = i / rs
          · rw [if_pos hj] at hstep
            by_cases hmax : sizeAt fl st i ≤ st.col_indent j
            · left
              rw [heq, hstep]
              exact max_eq_left hmax
            · right
              refine ⟨i, le_refl _, by omega, hj.symm, ?_⟩
              rw [heq, hstep]
              exact (max_eq_right (by omega)).symm
          · rw [if_neg hj] at hstep
            left
            rw [heq, hstep]
        · right
          refine ⟨p, by omega, hp2, hpj, ?_⟩
          rw [← sizeAt_frame fl hf1]
          exact hpe

theorem columnWidth_frame (fl : Flags) {st st1 : Session} (h : Frame st st1) (rows j : Nat) :
    columnWidth fl st1 rows j = columnWidth fl st rows j := by
  unfold columnWidth
  rw [frame_total_files h]
  have : sizeAt fl st1 = sizeAt fl st := funext (sizeAt_frame fl h)
  rw [this]

theorem clearFirst_apply (n : Nat) (a : Nat → Nat) (j : Nat) :
    clearFirst n a j = if j < n then 0 else a j := by
  induction n with
  | zero => simp [clearFirst]
  | succ n ih =>
    simp only [clearFirst, setAt]
    by_cases hj : j = n
    · subst hj
      simp
    · simp only [hj, if_false, ih]
      by_cases hlt : j < n
      · simp [hlt, Nat.lt_succ_of_lt hlt]
      · have : ¬ j < n + 1 := by omega
        simp [hlt, this]

theorem rowLen_eq_columnsWidth (fl : Flags) (st st2 : Session) (rows : Nat)
    (hi : fl.iflag = false) (hb : st2.blocks_indent = st.blocks_indent)
    (hcol : ∀ j, st2.col_indent j = columnWidth fl st rows j) (n : Nat) :
    rowLen fl st2 n = columnsWidth fl st rows n := by
  induction n with
  | zero => rfl
  | succ n ih =>
    simp only [rowLen, columnsWidth, ih, hcol n, hb, hi]
    simp

theorem div_lt_ceilDiv (total rows p : Nat) (hr : 0 < rows) (hp : p < total) :
    p / rows < ceilDiv total rows := by
  rw [Nat.div_lt_iff_lt_mul hr]
  have := le_mul_ceilDiv total rows hr
  rw [Nat.mul_comm] at this
  omega

theorem probe_ok (fl : Flags) (st : Session) (hN : 0 < st.total_files)
    (hcc1 : 0 < st.column_count) (hcc : st.column_count ≤ COL_MAX)
    (hzero : ∀ j, st.col_indent j = 0) (hi : fl.iflag = false) :
    (Fits fl st (ceilDiv st.total_files (ceilDiv st.total_files st.column_count)) →
      ∃ st1, probe fl st = .ok (st1, true) ∧ Frame st st1 ∧
        st1.column_count = ceilDiv st.total_files (ceilDiv st.total_files st.column_count) ∧
        ∀ j, st1.col_indent j
          = columnWidth fl st (ceilDiv st.total_files st.column_count) j) ∧
    (¬ Fits fl st (ceilDiv st.total_files (ceilDiv st.total_files st.column_count)) →
      ∃ st1, probe fl st = .ok (st1, false) ∧ Frame st st1 ∧
        st1.column_count
          = ceilDiv st.total_files (ceilDiv st.total_files st.column_count) - 1 ∧
        ∀ j, st1.col_indent j = 0) := by
  obtain ⟨hc_le, hc_pos, hc_rows⟩ := ceilDiv_correction st.total_files st.column_count hN hcc1
  have hr : 0 < ceilDiv st.total_files st.column_count := ceilDiv_pos _ _ hN hcc1
  generalize hrdef : ceilDiv st.total_files st.column_count = r at *
  generalize hcdef : ceilDiv st.total_files r = c at *
  -- the state after the correction of `column_count`
  let st1 : Session := if c < st.column_count then { st with column_count := c } else st
  have hst1_frame : Frame st st1 := by
    show Frame st (if c < st.column_count then { st with column_count := c } else st)
    split
    · exact ⟨rfl, rfl, rfl, rfl, rfl, rfl, rfl, rfl, rfl, rfl⟩
    · exact frame_refl st
  have hst1_cc : st1.column_count = c := by
    show (if c < st.column_count then { st with column_count := c } else st).column_count = c
    split
    · rfl
    · omega
  have hst1_col : st1.col_indent = st.col_indent := by
    show (if c < st.column_count then { st with column_count := c } else st).col_indent = _
    split <;> rfl
  have hst1_tot : st1.total_files = st.total_files := frame_total_files hst1_frame
  have hbound : ∀ p, p < st1.total_files → p / r < COL_MAX := by
    intro p hp
    rw [hst1_tot] at hp
    have := div_lt_ceilDiv st.total_files r p hr hp
    rw [hcdef] at this
    omega
  obtain ⟨st2, hloop, hf2, hcc2, hcol2⟩ :=
    accumulateLoop_ok fl r hr st1.total_files 0 st1 (by omega) hbound
  have hframe : Frame st st2 := frame_trans hst1_frame hf2
  have hcc2' : st2.column_count = c := hcc2.trans hst1_cc
  have hcolw : ∀ j, st2.col_indent j = columnWidth fl st r j := by
    intro j
    obtain ⟨_, hge, hatt⟩ := hcol2 j
    rw [hst1_tot] at hge hatt
    unfold columnWidth
    apply columnMax_unique
    · intro p hp hj
      have := hge p (Nat.zero_le _) hp hj
      rwa [sizeAt_frame fl hst1_frame] at this
    · rcases hatt with heq | ⟨p, _, hp, hj, hpe⟩
      · left
        rw [heq, hst1_col, hzero j]
      · right
        exact ⟨p, hp, hj, by rw [← sizeAt_frame fl hst1_frame]; exact hpe⟩
  have hrow : rowLen fl st2 st2.column_count = columnsWidth fl st r c := by
    rw [hcc2']
    exact rowLen_eq_columnsWidth fl st st2 r hi hframe.2.2.1 hcolw c
  have hfits : Fits fl st c ↔
      ¬ (((rowLen fl st2 st2.column_count : Nat) : Int)
          + ((st2.column_count : Int) - 1) * 2 ≥ fl.win_cols) := by
    unfold Fits layoutWidth
    rw [hc_rows, hrow, hcc2']
    omega
  have hprobe : probe fl st =
      if ((rowLen fl st2 st2.column_count : Nat) : Int)
          + ((st2.column_count : Int) - 1) * 2 ≥ fl.win_cols then
        .ok ({ st2 with
                col_indent := clearFirst st2.column_count st2.col_indent
                column_count := st2.column_count - 1 }, false)
      else .ok (st2, true) := by
    have h0 : ¬ st.column_count = 0 := by omega
    have h1 : ¬ r = 0 := by omega
    have h2 : ¬ COL_MAX < st2.column_count := by omega
    unfold probe
    simp only [h0, h1, if_false, hrdef, hcdef]
    have hloop' : accumulateLoop fl r
        (if c < st.column_count then { st with column_count := c } else st).total_files 0
        (if c < st.column_count then { st with column_count := c } else st) = .ok st2 := hloop
    rw [hloop']
    simp only [h2, if_false]
  constructor
  · intro hf
    refine ⟨st2, ?_, hframe, hcc2', hcolw⟩
    rw [hprobe, if_neg (hfits.mp hf)]
  · intro hnf
    have hge : ((rowLen fl st2 st2.column_count : Nat) : Int)
        + ((st2.column_count : Int) - 1) * 2 ≥ fl.win_cols := by
      by_contra h
      exact hnf (hfits.mpr h)
    refine ⟨{ st2 with
                col_indent := clearFirst st2.column_count st2.col_indent
                column_count := st2.column_count - 1 }, ?_, ?_, ?_, ?_⟩
    · rw [hprobe, if_pos hge]
    · obtain ⟨a1, a2, a3, a4, a5, a6, a7, a8, a9, a10⟩ := hframe
      exact ⟨a1, a2, a3, a4, a5, a6, a7, a8, a9, a10⟩
    · show st2.column_count - 1 = c - 1
      rw [hcc2']
    · intro j
      show clearFirst st2.column_count st2.col_indent j = 0
      rw [clearFirst_apply, hcc2']
      split
      · rfl
      · rename_i hj
        rw [hcolw j]
        unfold columnWidth
        apply columnMax_empty
        intro p hp hpj
        have := div_lt_ceilDiv st.total_files r p hr hp
        rw [hcdef] at this
        omega

theorem inodeDigitsAt_frame (fl : Flags) {st st1 : Session} (h : Frame st st1) (p : Nat) :
    inodeDigitsAt fl st1 p = inodeDigitsAt fl st p := by
  unfold inodeDigitsAt
  rw [frame_total_files h, h.1]

theorem columnInodeWidth_frame (fl : Flags) {st st1 : Session} (h : Frame st st1)
    (rows j : Nat) : columnInodeWidth fl st1 rows j = columnInodeWidth fl st rows j := by
  unfold columnInodeWidth
  rw [frame_total_files h]
  have : inodeDigitsAt fl st1 = inodeDigitsAt fl st := funext (inodeDigitsAt_frame fl h)
  rw [this]

theorem columnsWidth_frame (fl : Flags) {st st1 : Session} (h : Frame st st1) (rows n : Nat) :
    columnsWidth fl st1 rows n = columnsWidth fl st rows n := by
  induction n with
  | zero => rfl
  | succ n ih =>
    simp only [columnsWidth, ih, columnWidth_frame fl h, columnInodeWidth_frame fl h, h.2.2.1]

theorem fits_frame (fl : Flags) {st st1 : Session} (h : Frame st st1) (c : Nat) :
    Fits fl st1 c ↔ Fits fl st c := by
  unfold Fits layoutWidth
  rw [frame_total_files h, columnsWidth_frame fl h]

theorem achievable_le_correction (total a cc : Nat) (ha0 : 0 < a) (ha : Achievable total a)
    (hle : a ≤ cc) (hr : 0 < ceilDiv total cc) :
    a ≤ ceilDiv total (ceilDiv total cc) := by
  unfold Achievable at ha
  have h1 : ceilDiv total cc ≤ ceilDiv total a := ceilDiv_anti total a cc ha0 hle
  have h2 := ceilDiv_anti total (ceilDiv total cc) (ceilDiv total a) hr h1
  omega

theorem correction_ge_two (total cc : Nat) (hn : 2 ≤ total) (hcc : 2 ≤ cc) :
    2 ≤ ceilDiv total (ceilDiv total cc) := by
  have hr : 0 < ceilDiv total cc := ceilDiv_pos total cc (by omega) (by omega)
  by_contra h
  have h1 : ceilDiv total (ceilDiv total cc) ≤ 1 := by omega
  have h2 := (ceilDiv_le_iff total _ 1 hr).mp h1
  have h3 : ceilDiv total cc ≤ total - 1 := by
    rw [ceilDiv_le_iff total cc _ (by omega)]
    have : 2 * (total - 1) ≤ cc * (total - 1) := Nat.mul_le_mul_right _ hcc
    omega
  omega

theorem searchLoop_ok (fl : Flags) (hi : fl.iflag = false) (fuel : Nat) :
    ∀ st : Session, 0 < st.total_files → st.column_count ≤ fuel →
      st.column_count ≤ COL_MAX → (∀ j, st.col_indent j = 0) →
      (2 ≤ st.total_files → 1 ≤ st.column_count) →
      (∀ a, st.column_count < a → a ≤ COL_MAX → Achievable st.total_files a → ¬ Fits fl st a) →
      ∃ st1, searchLoop fl fuel st = .ok st1 ∧ Frame st st1 ∧
        st1.column_count ≤ st.column_count ∧
        (2 ≤ st.total_files → 1 ≤ st1.column_count) ∧
        (∀ a, st1.column_count < a → a ≤ COL_MAX → Achievable st.total_files a →
          ¬ Fits fl st a) ∧
        ((st.column_count ≤ 1 ∧ st1.column_count = st.column_count ∧
            ∀ j, st1.col_indent j = 0) ∨
         (2 ≤ st.column_count ∧ 1 ≤ st1.column_count ∧
            Achievable st.total_files st1.column_count ∧ Fits fl st st1.column_count ∧
            ∀ j, st1.col_indent j
              = columnWidth fl st (ceilDiv st.total_files st1.column_count) j) ∨
         (2 ≤ st.column_count ∧ st1.column_count ≤ 1 ∧ (∀ j, st1.col_indent j = 0) ∧
            Achievable st.total_files (st1.column_count + 1) ∧
            ¬ Fits fl st (st1.column_count + 1))) := by
  induction fuel with
  | zero =>
    intro st _ hfuel _ hzero hlow hno
    have h0 : ¬ st.column_count > 1 := by omega
    refine ⟨st, ?_, frame_refl st, le_refl _, hlow, hno, Or.inl ⟨by omega, rfl, hzero⟩⟩
    simp [searchLoop, h0]
  | succ fuel ih =>
    intro st hN hfuel hmax hzero hlow hno
    by_cases hgt : st.column_count > 1
    · obtain ⟨hfit, hnofit⟩ := probe_ok fl st hN (by omega) hmax hzero hi
      obtain ⟨hc_le, hc_pos, hc_rows⟩ :=
        ceilDiv_correction st.total_files st.column_count hN (by omega)
      have hr : 0 < ceilDiv st.total_files st.column_count :=
        ceilDiv_pos _ _ hN (by omega)
      have hach : Achievable st.total_files
          (ceilDiv st.total_files (ceilDiv st.total_files st.column_count)) := by
        unfold Achievable
        rw [hc_rows]
      -- no achievable count strictly between the corrected count and `column_count`
      have hgap : ∀ a, ceilDiv st.total_files (ceilDiv st.total_files st.column_count) < a →
          a ≤ COL_MAX → Achievable st.total_files a → ¬ Fits fl st a := by
        intro a ha1 ha2 ha3
        by_cases hle : a ≤ st.column_count
        · have := achievable_le_correction st.total_files a st.column_count (by omega) ha3 hle hr
          omega
        · exact hno a (by omega) ha2 ha3
      by_cases hf : Fits fl st (ceilDiv st.total_files (ceilDiv st.total_files st.column_count))
      · obtain ⟨st1, hp, hfr, hcc, hcol⟩ := hfit hf
        refine ⟨st1, ?_, hfr, by omega, fun _ => by omega, ?_, Or.inr (Or.inl ?_)⟩
        · simp only [searchLoop, hgt, if_true, hp]
        · rw [hcc]
          exact hgap
        · rw [hcc]
          refine ⟨hgt, hc_pos, hach, hf, ?_⟩
          rw [hc_rows]
          exact hcol
      · obtain ⟨st1, hp, hfr, hcc, hcol⟩ := hnofit hf
        have htot : st1.total_files = st.total_files := frame_total_files hfr
        have hlow1 : 2 ≤ st1.total_files → 1 ≤ st1.column_count := by
          intro h2
          rw [htot] at h2
          have := correction_ge_two st.total_files st.column_count h2 hgt
          omega
        have hno1 : ∀ a, st1.column_count < a → a ≤ COL_MAX →
            Achievable st1.total_files a → ¬ Fits fl st1 a := by
          intro a ha1 ha2 ha3
          rw [htot] at ha3
          rw [fits_frame fl hfr]
          by_cases hac : a = ceilDiv st.total_files (ceilDiv st.total_files st.column_count)
          · rw [hac]
            exact hf
          · exact hgap a (by omega) ha2 ha3
        obtain ⟨st2, hs, hfr2, hcc2, hlow2, hno2, hcase⟩ :=
          ih st1 (by rw [htot]; exact hN) (by omega) (by omega) hcol hlow1 hno1
        have hfits2 : ∀ a, Fits fl st1 a ↔ Fits fl st a := fun a => fits_frame fl hfr a
        refine ⟨st2, ?_, frame_trans hfr hfr2, by omega, ?_, ?_, ?_⟩
        · simp only [searchLoop, hgt, if_true, hp]
          exact hs
        · intro h2
          exact hlow2 (by rw [htot]; exact h2)
        · intro a ha1 ha2 ha3
          rw [← hfits2]
          exact hno2 a ha1 ha2 (by rw [htot]; exact ha3)
        · rcases hcase with ⟨h1, h2, h3⟩ | ⟨h1, h2, h3, h4, h5⟩ | ⟨h1, h2, h3, h4, h5⟩
          · right; right
            refine ⟨hgt, by omega, h3, ?_, ?_⟩
            · rw [h2, hcc]
              have : ceilDiv st.total_files (ceilDiv st.total_files st.column_count) - 1 + 1
                  = ceilDiv st.total_files (ceilDiv st.total_files st.column_count) := by omega
              rw [this]
              exact hach
            · rw [h2, hcc]
              have : ceilDiv st.total_files (ceilDiv st.total_files st.column_count) - 1 + 1
                  = ceilDiv st.total_files (ceilDiv st.total_files st.column_count) := by omega
              rw [this]
              exact hf
          · right; left
            rw [htot] at h3 h5
            refine ⟨hgt, h2, h3, (hfits2 _).mp h4, ?_⟩
            intro j
            rw [h5 j, columnWidth_frame fl hfr]
          · right; right
            rw [htot] at h4
            exact ⟨hgt, h2, h3, h4, fun h => h5 ((hfits2 _).mpr h)⟩
    · refine ⟨st, ?_, frame_refl st, le_refl _, hlow, hno, Or.inl ⟨by omega, rfl, hzero⟩⟩
      simp [searchLoop, hgt]

theorem achievable_le_total (total c : Nat) (hn : 0 < total) (h : Achievable total c) :
    c ≤ total := by
  unfold Achievable at h
  by_cases hc : c = 0
  · omega
  · have hr : 0 < ceilDiv total c := ceilDiv_pos total c hn (by omega)
    have := ceilDiv_le_self total (ceilDiv total c) hr
    omega

/-- What `calculateColumnCount` leaves behind when `-i` is off and the name width
accumulators start at zero: the run ends without a fault, only `column_count` and the
accumulators change, and the final `column_count` is either a fitting achievable
count of at least two with the column widths of its layout in `col_indent`, or one
with `max_size` in `col_indent[0]`, or zero for a single entry that does not fit. -/
theorem calculateColumnCount_outcome (fl : Flags) (st : Session) (hi : fl.iflag = false)
    (hN : 0 < st.total_files) (hzero : ∀ j, st.col_indent j = 0) :
    ∃ st1, calculateColumnCount fl st = .ok st1 ∧ Frame st st1 ∧
      st1.column_count ≤ COL_MAX ∧ st1.column_count ≤ st.total_files ∧
      (∀ a, st1.column_count < a → a ≤ COL_MAX → Achievable st.total_files a →
        ¬ Fits fl st a) ∧
      ((2 ≤ st1.column_count ∧ Achievable st.total_files st1.column_count ∧
          Fits fl st st1.column_count ∧
          ∀ j, st1.col_indent j
            = columnWidth fl st (ceilDiv st.total_files st1.column_count) j) ∨
       (st1.column_count = 1 ∧ st1.col_indent 0 = st.max_size ∧
          (st.total_files = 1 → Fits fl st 1)) ∨
       (st1.column_count = 0 ∧ st.total_files = 1 ∧ ¬ Fits fl st 1)) := by
  have hfr0 : Frame st { st with column_count := COL_MAX } :=
    ⟨rfl, rfl, rfl, rfl, rfl, rfl, rfl, rfl, rfl, rfl⟩
  have htot0 : ({ st with column_count := COL_MAX } : Session).total_files = st.total_files :=
    rfl
  obtain ⟨st1, hs, hfr, hcc, hlow, hno, hcase⟩ :=
    searchLoop_ok fl hi COL_MAX { st with column_count := COL_MAX } hN (le_refl _) (le_refl _)
      hzero (fun _ => (by decide : 1 ≤ COL_MAX)) (fun a ha1 ha2 _ => by
        have : ({ st with column_count := COL_MAX } : Session).column_count = COL_MAX := rfl
        omega)
  have hcc' : st1.column_count ≤ COL_MAX := hcc
  have hfits : ∀ a, Fits fl { st with column_count := COL_MAX } a ↔ Fits fl st a :=
    fun a => fits_frame fl hfr0 a
  have hcw : ∀ rows j, columnWidth fl { st with column_count := COL_MAX } rows j
      = columnWidth fl st rows j := fun rows j => columnWidth_frame fl hfr0 rows j
  rw [htot0] at hlow hno hcase
  have hstart : ¬ ({ st with column_count := COL_MAX } : Session).column_count ≤ 1 := by
    show ¬ COL_MAX ≤ 1
    decide
  have hmax1 : st1.max_size = st.max_size := hfr.2.1
  by_cases h1 : st1.column_count = 1
  · -- the final assignment `col_indent[0] = max_size`
    refine ⟨{ st1 with col_indent := setAt st1.col_indent 0 st1.max_size }, ?_, ?_, ?_, ?_, ?_,
      Or.inr (Or.inl ⟨h1, ?_, ?_⟩)⟩
    · simp only [calculateColumnCount, hs, h1, if_true]
    · obtain ⟨a1, a2, a3, a4, a5, a6, a7, a8, a9, a10⟩ := frame_trans hfr0 hfr
      exact ⟨a1, a2, a3, a4, a5, a6, a7, a8, a9, a10⟩
    · exact hcc'
    · show st1.column_count ≤ st.total_files
      omega
    · intro a ha1 ha2 ha3
      rw [← hfits]
      exact hno a ha1 ha2 ha3
    · show setAt st1.col_indent 0 st1.max_size 0 = st.max_size
      simp [setAt, hmax1]
    · intro hone
      rcases hcase with ⟨h, _⟩ | ⟨_, _, _, h4, _⟩ | ⟨_, _, _, h4, _⟩
      · exact absurd h hstart
      · rw [h1] at h4
        exact (hfits 1).mp h4
      · rw [h1] at h4
        have := achievable_le_total st.total_files 2 hN h4
        omega
  · refine ⟨st1, ?_, frame_trans hfr0 hfr, hcc', ?_, ?_, ?_⟩
    · simp only [calculateColumnCount, hs, h1, if_false]
    · rcases hcase with ⟨h, _⟩ | ⟨_, _, h3, _, _⟩ | ⟨_, h2, _, _, _⟩
      · exact absurd h hstart
      · exact achievable_le_total st.total_files _ hN h3
      · omega
    · intro a ha1 ha2 ha3
      rw [← hfits]
      exact hno a ha1 ha2 ha3
    · rcases hcase with ⟨h, _⟩ | ⟨_, h2, h3, h4, h5⟩ | ⟨_, h2, _, h4, h5⟩
      · exact absurd h hstart
      · left
        refine ⟨by omega, h3, (hfits _).mp h4, ?_⟩
        intro j
        rw [h5 j, hcw]
      · right; right
        have h0 : st1.column_count = 0 := by omega
        rw [h0] at h4 h5
        have hn1 : st.total_files = 1 := by
          by_contra hne
          have := hlow (by omega)
          omega
        exact ⟨h0, hn1, fun h => h5 ((hfits 1).mpr h)⟩

/-- C1, as stated, fails.  Five entries with names one character wide in a terminal
of width 10: `calculateColumnCount` leaves `column_count = 3`, yet the layout with
4 columns (2 rows; column widths 1, 1, 1, 0; gaps 6; total 9) fits and 4 is within
`min(COL_MAX, N)`, so 3 is not the largest count that fits. -/
theorem calculateColumnCount_largest_counterexample :
    chosenColumnCount { win_cols := 10 } fiveShortNames = some 3 ∧
    ceilDiv fiveShortNames.total_files 4 = 2 ∧
    layoutWidth { win_cols := 10 } fiveShortNames 4 = 9 ∧
    Fits { win_cols := 10 } fiveShortNames 4 ∧
    4 ≤ min COL_MAX fiveShortNames.total_files ∧
    ¬ Achievable fiveShortNames.total_files 4 := by
  decide!

/-- C1, amended. For a non-empty entry list, with `-i` off and the accumulators zeroed
as `initializeFiles` leaves them, `calculateColumnCount` ends without a fault, leaves
the entries alone, and leaves a `column_count` of at most `min(COL_MAX, N)` above
which no achievable count (one with `c = ceil(N / ceil(N / c))`, no empty column)
fits; a final count of two or more is itself achievable and fits; with two or more
entries the count never drops below one (one is the fallback, fitting or not); a
single entry that fits gets one column. -/
theorem calculateColumnCount_largest_achievable_fit (fl : Flags) (st : Session)
    (hN : 0 < st.total_files) (hi : fl.iflag = false) (hzero : ∀ j, st.col_indent j = 0) :
    ∃ st1, calculateColumnCount fl st = .ok st1 ∧ st1.files = st.files ∧
      st1.column_count ≤ min COL_MAX st.total_files ∧
      (∀ a, st1.column_count < a → a ≤ min COL_MAX st.total_files →
        Achievable st.total_files a → ¬ Fits fl st a) ∧
      (2 ≤ st1.column_count →
        Achievable st.total_files st1.column_count ∧ Fits fl st st1.column_count) ∧
      (2 ≤ st.total_files → 1 ≤ st1.column_count) ∧
      (st.total_files = 1 → Fits fl st 1 → st1.column_count = 1) := by
  obtain ⟨st1, hs, hfr, hc1, hc2, hno, hcase⟩ := calculateColumnCount_outcome fl st hi hN hzero
  refine ⟨st1, hs, hfr.1, ?_, ?_, ?_, ?_, ?_⟩
  · exact le_min hc1 hc2
  · intro a ha1 ha2 ha3
    exact hno a ha1 (le_trans ha2 (min_le_left _ _)) ha3
  · intro h2
    rcases hcase with ⟨_, h3, h4, _⟩ | ⟨h, _⟩ | ⟨h, _⟩
    · exact ⟨h3, h4⟩
    · omega
    · omega
  · intro h2
    rcases hcase with ⟨h, _⟩ | ⟨h, _⟩ | ⟨_, h, _⟩
    · omega
    · omega
    · omega
  · intro h1 hf
    rcases hcase with ⟨h, _⟩ | ⟨h, _⟩ | ⟨_, _, h⟩
    · omega
    · exact h
    · exact absurd hf h

theorem calculateColumnCount_largest_achievable_fit_witness :
    ∃ st1, calculateColumnCount { win_cols := 10 } fiveShortNames = .ok st1 ∧
      st1.files = fiveShortNames.files ∧
      st1.column_count ≤ min COL_MAX fiveShortNames.total_files ∧
      (∀ a, st1.column_count < a → a ≤ min COL_MAX fiveShortNames.total_files →
        Achievable fiveShortNames.total_files a → ¬ Fits { win_cols := 10 } fiveShortNames a) ∧
      (2 ≤ st1.column_count →
        Achievable fiveShortNames.total_files st1.column_count ∧
        Fits { win_cols := 10 } fiveShortNames st1.column_count) ∧
      (2 ≤ fiveShortNames.total_files → 1 ≤ st1.column_count) ∧
      (fiveShortNames.total_files = 1 → Fits { win_cols := 10 } fiveShortNames 1 →
        st1.column_count = 1) :=
  calculateColumnCount_largest_achievable_fit { win_cols := 10 } fiveShortNames
    (by decide) rfl (fun _ => rfl)

theorem accumulateEntry_frame (fl : Flags) (rs i : Nat) (st st1 : Session)
    (h : accumulateEntry fl rs i st = .ok st1) : Frame st st1 := by
  unfold accumulateEntry at h
  split at h
  · cases h
  · split at h
    · cases h
    · split at h
      · cases h
      · cases h
        exact ⟨rfl, rfl, rfl, rfl, rfl, rfl, rfl, rfl, rfl, rfl⟩

theorem accumulateLoop_frame (fl : Flags) (rs k : Nat) :
    ∀ (i : Nat) (st st1 : Session), accumulateLoop fl rs k i st = .ok st1 → Frame st st1 := by
  induction k with
  | zero =>
    intro i st st1 h
    simp only [accumulateLoop] at h
    cases h
    exact frame_refl st
  | succ k ih =>
    intro i st st1 h
    simp only [accumulateLoop] at h
    split at h
    · cases h
    · rename_i st2 h2
      exact frame_trans (accumulateEntry_frame fl rs i st st2 h2) (ih (i + 1) st2 st1 h)

theorem frame_correction (st : Session) (c : Nat) :
    Frame st (if c < st.column_count then { st with column_count := c } else st) := by
  split
  · exact ⟨rfl, rfl, rfl, rfl, rfl, rfl, rfl, rfl, rfl, rfl⟩
  · exact frame_refl st

theorem probe_frame (fl : Flags) (st st1 : Session) (b : Bool)
    (h : probe fl st = .ok (st1, b)) : Frame st st1 := by
  unfold probe at h
  split at h
  · cases h
  · split at h
    · cases h
    · simp only at h
      split at h
      · cases h
      · rename_i st2 h2
        have hf0 := frame_correction st
          (ceilDiv st.total_files (ceilDiv st.total_files st.column_count))
        have hf2 := frame_trans hf0 (accumulateLoop_frame fl _ _ 0 _ st2 h2)
        split at h
        · cases h
        · split at h
          · cases h
            obtain ⟨a1, a2, a3, a4, a5, a6, a7, a8, a9, a10⟩ := hf2
            exact ⟨a1, a2, a3, a4, a5, a6, a7, a8, a9, a10⟩
          · cases h
            exact hf2

theorem searchLoop_frame (fl : Flags) (fuel : Nat) :
    ∀ (st st1 : Session), searchLoop fl fuel st = .ok st1 → Frame st st1 := by
  induction fuel with
  | zero =>
    intro st st1 h
    simp only [searchLoop] at h
    split at h
    · cases h
    · cases h
      exact frame_refl st
  | succ fuel ih =>
    intro st st1 h
    simp only [searchLoop] at h
    split at h
    · split at h
      · cases h
      · rename_i st2 h2
        cases h
        exact probe_frame fl st _ true h2
      · rename_i st2 h2
        exact frame_trans (probe_frame fl st st2 false h2) (ih st2 st1 h)
    · cases h
      exact frame_refl st

theorem calculateColumnCount_frame (fl : Flags) (st st1 : Session)
    (h : calculateColumnCount fl st = .ok st1) : Frame st st1 := by
  unfold calculateColumnCount at h
  split at h
  · cases h
  · rename_i st2 h2
    have hf0 : Frame st { st with column_count := COL_MAX } :=
      ⟨rfl, rfl, rfl, rfl, rfl, rfl, rfl, rfl, rfl, rfl⟩
    have hf2 := frame_trans hf0 (searchLoop_frame fl COL_MAX _ st2 h2)
    cases h
    split
    · obtain ⟨a1, a2, a3, a4, a5, a6, a7, a8, a9, a10⟩ := hf2
      exact ⟨a1, a2, a3, a4, a5, a6, a7, a8, a9, a10⟩
    · exact hf2

theorem renderOrder_reverse (fl : Flags) (st : Session) :
    renderOrder { fl with rflag := true } st
      = (renderOrder { fl with rflag := false } st).reverse := by
  simp [renderOrder]

theorem decimalFuel_length (fuel : Nat) :
    ∀ n, (decimalFuel fuel n).length = countDigitsFuel fuel n := by
  induction fuel with
  | zero => intro n; rfl
  | succ fuel ih =>
    intro n
    simp only [decimalFuel, countDigitsFuel]
    split
    · rfl
    · simp [ih, Nat.add_comm]

theorem decimal_length (n : Nat) : (decimal n).length = countDigits n :=
  decimalFuel_length n n

theorem blankField_length (w : Int) : (blankField w).length = w.natAbs := by
  simp [blankField]

theorem gridEntry_some (fl : Flags) (st : Session) (L i j : Nat) (f : FileInfo)
    (h : gridEntry fl st L i j = some f) :
    i + j * L < st.total_files ∧
    st.files[renderPos fl st.total_files (i + j * L)]? = some f := by
  unfold gridEntry at h
  split at h
  · rename_i hlt
    exact ⟨hlt, h⟩
  · cases h

theorem gridEntry_mem (fl : Flags) (st : Session) (L i j : Nat) (f : FileInfo)
    (h : gridEntry fl st L i j = some f) : f ∈ st.files := by
  have := (gridEntry_some fl st L i j f h).2
  exact List.getElem?_mem this

theorem gridEntry_sizeAt (fl : Flags) (st : Session) (L i j : Nat) (f : FileInfo)
    (h : gridEntry fl st L i j = some f) : sizeAt fl st (i + j * L) = f.size := by
  unfold sizeAt
  rw [(gridEntry_some fl st L i j f h).2]

/-- The text of one cell when `-i` is off and the name fits its column: the block
field, if any, is `blocks_indent + 1` wide and the padded name as wide as the
column. -/
theorem cellText_length (fl : Flags) (st : Session) (L i j : Nat) (f : FileInfo)
    (hi : fl.iflag = false) (hw : fl.win_cols ≠ 0) (hL : 0 < L) (hiL : i < L)
    (hj : j < COL_MAX) (hname : f.name.length ≤ st.col_indent j)
    (hblocks : fl.sflag = true → countDigits f.blocks ≤ st.blocks_indent) :
    ∃ text, cellText fl st L i j f = .ok text ∧
      text.length = st.col_indent j + (if fl.sflag then st.blocks_indent + 1 else 0) := by
  have hidx : (i + j * L) / L = j := by
    rw [Nat.add_mul_div_right _ _ hL, Nat.div_eq_of_lt hiL, Nat.zero_add]
  have hL0 : ¬ L = 0 := by omega
  have hb : ¬ COL_MAX ≤ j := by omega
  unfold cellText
  simp only [hi, hw, hL0, hidx, hb, if_false]
  refine ⟨_, rfl, ?_⟩
  by_cases hs : fl.sflag = true
  · have := hblocks hs
    simp only [hs, if_true, List.length_append, blankField_length, decimal_length,
      List.length_cons, List.length_nil, Bool.false_eq_true, if_false]
    omega
  · simp only [hs, if_false, List.length_append, blankField_length, List.length_nil,
      Bool.false_eq_true]
    omega

theorem gridRowFrom_width (fl : Flags) (st : Session) (L i : Nat)
    (hi : fl.iflag = false) (hw : fl.win_cols ≠ 0) (hL : 0 < L) (hiL : i < L)
    (hc : st.column_count ≤ COL_MAX)
    (hfit : ∀ j f, j < st.column_count → gridEntry fl st L i j = some f →
      f.name.length ≤ st.col_indent j ∧
      (fl.sflag = true → countDigits f.blocks ≤ st.blocks_indent)) (k : Nat) :
    ∀ j, j + (k + 1) = st.column_count →
      ∃ line, gridRowFrom fl st L i (k + 1) j
          = .ok (line ++ (if i + 1 < L then ['\n'] else [])) ∧
        line.length + rowLen fl st j + 2 ≤ rowLen fl st (j + (k + 1)) + 2 * (k + 1) := by
  induction k with
  | zero =>
    intro j hjk
    have hlast : j + 1 = st.column_count := by omega
    have hnlt : ¬ j + 1 < st.column_count := by omega
    have hsep : (if j + 1 = st.column_count ∧ i + 1 < L then ['\n']
        else if j + 1 < st.column_count then [' ', ' '] else [])
        = (if i + 1 < L then ['\n'] else []) := by
      by_cases h : i + 1 < L <;> simp [h, hlast]
    have hrow : rowLen fl st (j + (0 + 1)) = rowLen fl st j + st.col_indent j
        + (if fl.sflag then st.blocks_indent + 1 else 0) := by
      simp only [Nat.zero_add, rowLen, hi]
      simp
    simp only [gridRowFrom, gridCell]
    rw [hsep, hrow]
    cases hge : gridEntry fl st L i j with
    | none =>
      refine ⟨[], ?_, ?_⟩
      · simp
      · simp only [List.length_nil]
        omega
    | some f =>
      obtain ⟨h1, h2⟩ := hfit j f (by omega) hge
      obtain ⟨text, ht, hlen⟩ := cellText_length fl st L i j f hi hw hL hiL (by omega) h1 h2
      refine ⟨text, ?_, ?_⟩
      · simp [ht]
      · omega
  | succ k ih =>
    intro j hjk
    obtain ⟨rest, hrest, hrlen⟩ := ih (j + 1) (by omega)
    have hnlast : ¬ j + 1 = st.column_count := by omega
    have hlt : j + 1 < st.column_count := by omega
    have hsum : j + 1 + (k + 1) = j + (k + 1 + 1) := by omega
    rw [hsum] at hrlen
    have hrow : rowLen fl st (j + 1) = rowLen fl st j + st.col_indent j
        + (if fl.sflag then st.blocks_indent + 1 else 0) := by
      simp only [rowLen, hi]
      simp
    rw [gridRowFrom, hrest]
    simp only [gridCell, hnlast, hlt, false_and, if_false, if_true]
    cases hge : gridEntry fl st L i j with
    | none =>
      refine ⟨[' ', ' '] ++ rest, ?_, ?_⟩
      · simp
      · simp only [List.length_append, List.length_cons, List.length_nil]
        omega
    | some f =>
      obtain ⟨h1, h2⟩ := hfit j f (by omega) hge
      obtain ⟨text, ht, hlen⟩ := cellText_length fl st L i j f hi hw hL hiL (by omega) h1 h2
      refine ⟨text ++ [' ', ' '] ++ rest, ?_, ?_⟩
      · simp [ht]
      · simp only [List.length_append, List.length_cons, List.length_nil, hlen]
        omega

theorem gridRow_width (fl : Flags) (st : Session) (L i : Nat)
    (hi : fl.iflag = false) (hw : fl.win_cols ≠ 0) (hL : 0 < L) (hiL : i < L)
    (hc : st.column_count ≤ COL_MAX) (hc0 : 0 < st.column_count)
    (hfit : ∀ j f, j < st.column_count → gridEntry fl st L i j = some f →
      f.name.length ≤ st.col_indent j ∧
      (fl.sflag = true → countDigits f.blocks ≤ st.blocks_indent)) :
    ∃ line, gridRow fl st L i = .ok (line ++ (if i + 1 < L then ['\n'] else [])) ∧
      (line.length : Int) ≤ (rowLen fl st st.column_count : Nat)
        + ((st.column_count : Int) - 1) * 2 := by
  obtain ⟨k, hk⟩ : ∃ k, st.column_count = k + 1 := ⟨st.column_count - 1, by omega⟩
  obtain ⟨line, hline, hlen⟩ := gridRowFrom_width fl st L i hi hw hL hiL hc hfit k 0 (by omega)
  refine ⟨line, ?_, ?_⟩
  · unfold gridRow
    rw [hk]
    exact hline
  · have h0 : rowLen fl st 0 = 0 := rfl
    rw [Nat.zero_add, h0] at hlen
    rw [hk]
    push_cast
    omega

theorem sizeAt_le_of_bound (fl : Flags) (st : Session) (bound : Nat)
    (h : ∀ f ∈ st.files, f.size ≤ bound) (p : Nat) : sizeAt fl st p ≤ bound := by
  unfold sizeAt
  split
  · rename_i f hf
    exact h f (List.getElem?_mem hf)
  · exact Nat.zero_le _

theorem columnWidth_le_of_bound (fl : Flags) (st : Session) (bound : Nat)
    (h : ∀ f ∈ st.files, f.size ≤ bound) (rows j : Nat) :
    columnWidth fl st rows j ≤ bound := by
  unfold columnWidth
  rcases columnMax_attained (sizeAt fl st) st.total_files rows j with h0 | ⟨p, _, _, hp⟩
  · omega
  · rw [← hp]
    exact sizeAt_le_of_bound fl st bound h p

theorem gridRowsFrom_ok (fl : Flags) (st : Session) (L : Nat)
    (hrow : ∀ i, i < L → ∃ text, gridRow fl st L i = .ok text) (k : Nat) :
    ∀ i, i + k = L → ∃ text, gridRowsFrom fl st L k i = .ok text := by
  induction k with
  | zero => intro i _; exact ⟨[], rfl⟩
  | succ k ih =>
    intro i hik
    obtain ⟨t1, h1⟩ := hrow i (by omega)
    obtain ⟨t2, h2⟩ := ih (i + 1) (by omega)
    exact ⟨t1 ++ t2, by simp only [gridRowsFrom, h1, h2]⟩

/-- C2, as stated, fails.  Two entries `a` and `b` with block count 8, option `-s`,
terminal width 2 (larger than the longest display width, 1): the search falls back
to one column and `printDir` prints the rows `8 a` and `8 b`, each 3 wide. -/
theorem grid_row_width_counterexample :
    (∀ f ∈ twoShortNames.files, (f.size : Int) < 2) ∧
    (renderDirectory { sflag := true, win_cols := 2 } sampleEnv twoShortNames).toOption
      = some ['8', ' ', 'a', '\n', '8', ' ', 'b', '\n'] ∧
    ¬ ((['8', ' ', 'a'].length : Int) < 2) := by
  decide!

/-- C2, amended. For a non-empty entry list with `-i` off, cached widths equal to the
name lengths, `max_size` at least every display width and, under `-s`,
`blocks_indent` at least every block digit count, and for a terminal width larger
than `max_size` plus the block field (`blocks_indent + 1` under `-s`): the search
ends without a fault with at least one column, `printDir` prints the grid, and every
row of it, without its newline, is narrower than `win_cols`. -/
theorem grid_rows_below_width (fl : Flags) (env : Env) (st : Session)
    (hN : 0 < st.total_files) (hi : fl.iflag = false) (hline : fl.line_format = false)
    (hzero : ∀ j, st.col_indent j = 0)
    (hsize : ∀ f ∈ st.files, f.size = f.name.length)
    (hmax : ∀ f ∈ st.files, f.size ≤ st.max_size)
    (hblocks : fl.sflag = true → ∀ f ∈ st.files, countDigits f.blocks ≤ st.blocks_indent)
    (hW : ((st.max_size + (if fl.sflag then st.blocks_indent + 1 else 0) : Nat) : Int)
      < fl.win_cols) :
    ∃ st1 out, calculateColumnCount fl st = .ok st1 ∧ printDir fl env st1 = .ok out ∧
      0 < st1.column_count ∧
      ∀ i, i < ceilDiv st.total_files st1.column_count →
        ∃ line, gridRow fl st1 (ceilDiv st.total_files st1.column_count) i
            = .ok (line ++
                (if i + 1 < ceilDiv st.total_files st1.column_count then ['\n'] else [])) ∧
          (line.length : Int) < fl.win_cols := by
  obtain ⟨st1, hs, hfr, hc1, hc2, _, hcase⟩ := calculateColumnCount_outcome fl st hi hN hzero
  have hw0 : fl.win_cols ≠ 0 := by omega
  have htot : st1.total_files = st.total_files := frame_total_files hfr
  have hfiles : st1.files = st.files := hfr.1
  have hbi : st1.blocks_indent = st.blocks_indent := hfr.2.2.1
  -- the rows are narrow as soon as the accumulators bound the names and the row length fits
  have hrows : 0 < st1.column_count →
      (∀ i j f, i < ceilDiv st.total_files st1.column_count → j < st1.column_count →
        gridEntry fl st1 (ceilDiv st.total_files st1.column_count) i j = some f →
        f.name.length ≤ st1.col_indent j) →
      ((rowLen fl st1 st1.column_count : Nat) : Int) + ((st1.column_count : Int) - 1) * 2
        < fl.win_cols →
      ∀ i, i < ceilDiv st.total_files st1.column_count →
        ∃ line, gridRow fl st1 (ceilDiv st.total_files st1.column_count) i
            = .ok (line ++
                (if i + 1 < ceilDiv st.total_files st1.column_count then ['\n'] else [])) ∧
          (line.length : Int) < fl.win_cols := by
    intro hc0 hnames hlen i hiL
    have hL : 0 < ceilDiv st.total_files st1.column_count := by omega
    obtain ⟨line, h1, h2⟩ := gridRow_width fl st1 _ i hi hw0 hL hiL hc1 hc0 (by
      intro j f hj hge
      refine ⟨hnames i j f hiL hj hge, ?_⟩
      intro hsf
      rw [hbi]
      exact hblocks hsf f (hfiles ▸ gridEntry_mem fl st1 _ i j f hge))
    exact ⟨line, h1, by omega⟩
  have hprint : 0 < st1.column_count →
      (∀ i, i < ceilDiv st.total_files st1.column_count →
        ∃ line, gridRow fl st1 (ceilDiv st.total_files st1.column_count) i
            = .ok (line ++
                (if i + 1 < ceilDiv st.total_files st1.column_count then ['\n'] else [])) ∧
          (line.length : Int) < fl.win_cols) →
      ∃ out, printDir fl env st1 = .ok out := by
    intro hc0 hr
    have hne : ¬ st1.column_count = 0 := by omega
    obtain ⟨text, ht⟩ := gridRowsFrom_ok fl st1 (ceilDiv st.total_files st1.column_count)
      (fun i hiL => by
        obtain ⟨line, h1, _⟩ := hr i hiL
        exact ⟨_, h1⟩) (ceilDiv st.total_files st1.column_count) 0 (by omega)
    refine ⟨text ++ ['\n'], ?_⟩
    unfold printDir
    simp only [hline, hne, htot, ht, if_false, Bool.false_eq_true]
  rcases hcase with ⟨h2, _, hfit, hcol⟩ | ⟨h1, hcol0, _⟩ | ⟨_, hn1, hnofit⟩
  · have hc0 : 0 < st1.column_count := by omega
    have hr := hrows hc0 (by
      intro i j f hiL hj hge
      have hmem : f ∈ st.files := hfiles ▸ gridEntry_mem fl st1 _ i j f hge
      have hpos := (gridEntry_some fl st1 _ i j f hge).1
      rw [htot] at hpos
      have hsz : sizeAt fl st (i + j * ceilDiv st.total_files st1.column_count) = f.size := by
        rw [← sizeAt_frame fl hfr]
        exact gridEntry_sizeAt fl st1 _ i j f hge
      have hcolj : (i + j * ceilDiv st.total_files st1.column_count)
          / ceilDiv st.total_files st1.column_count = j := by
        rw [Nat.add_mul_div_right _ _ (by omega), Nat.div_eq_of_lt hiL, Nat.zero_add]
      have := columnMax_ge (sizeAt fl st) st.total_files
        (ceilDiv st.total_files st1.column_count) j _ hpos hcolj
      rw [hcol j, ← hsize f hmem, ← hsz]
      exact this) (by
      rw [rowLen_eq_columnsWidth fl st st1 _ hi hbi hcol]
      exact hfit)
    obtain ⟨out, hout⟩ := hprint hc0 hr
    exact ⟨st1, out, hs, hout, hc0, hr⟩
  · have hc0 : 0 < st1.column_count := by omega
    have hr := hrows hc0 (by
      intro i j f _ hj hge
      have hmem : f ∈ st.files := hfiles ▸ gridEntry_mem fl st1 _ i j f hge
      have hj0 : j = 0 := by omega
      rw [hj0, hcol0, ← hsize f hmem]
      exact hmax f hmem) (by
      rw [h1]
      simp only [rowLen, hi, hcol0, hbi]
      simp only [Bool.false_eq_true, if_false]
      push_cast at hW ⊢
      omega)
    obtain ⟨out, hout⟩ := hprint hc0 hr
    exact ⟨st1, out, hs, hout, hc0, hr⟩
  · exfalso
    apply hnofit
    unfold Fits layoutWidth
    have hcw := columnWidth_le_of_bound fl st st.max_size hmax (ceilDiv st.total_files 1) 0
    simp only [columnsWidth, hi]
    simp only [Bool.false_eq_true, if_false]
    push_cast at hW ⊢
    omega

theorem grid_rows_below_width_witness :
    ∃ st1 out, calculateColumnCount { win_cols := 20 } fiveMixedNames = .ok st1 ∧
      printDir { win_cols := 20 } sampleEnv st1 = .ok out ∧
      0 < st1.column_count ∧
      ∀ i, i < ceilDiv fiveMixedNames.total_files st1.column_count →
        ∃ line, gridRow { win_cols := 20 } st1
              (ceilDiv fiveMixedNames.total_files st1.column_count) i
            = .ok (line ++
                (if i + 1 < ceilDiv fiveMixedNames.total_files st1.column_count then ['\n']
                 else [])) ∧
          (line.length : Int) < ({ win_cols := 20 } : Flags).win_cols :=
  grid_rows_below_width { win_cols := 20 } sampleEnv fiveMixedNames
    (by decide) rfl rfl (fun _ => rfl) (by decide) (by decide) (by decide) (by decide)

theorem accumulateEntry_column_count (fl : Flags) (rs i : Nat) (st st1 : Session)
    (h : accumulateEntry fl rs i st = .ok st1) : st1.column_count = st.column_count := by
  unfold accumulateEntry at h
  split at h
  · cases h
  · split at h
    · cases h
    · split at h
      · cases h
      · cases h
        rfl

theorem accumulateLoop_column_count (fl : Flags) (rs k : Nat) :
    ∀ (i : Nat) (st st1 : Session), accumulateLoop fl rs k i st = .ok st1 →
      st1.column_count = st.column_count := by
  induction k with
  | zero =>
    intro i st st1 h
    simp only [accumulateLoop] at h
    cases h
    rfl
  | succ k ih =>
    intro i st st1 h
    simp only [accumulateLoop] at h
    split at h
    · cases h
    · rename_i st2 h2
      rw [ih (i + 1) st2 st1 h, accumulateEntry_column_count fl rs i st st2 h2]

theorem correction_column_count_le (st : Session) (c : Nat) :
    (if c < st.column_count then { st with column_count := c } else st).column_count
      ≤ st.column_count := by
  split
  · rename_i hlt
    exact Nat.le_of_lt hlt
  · exact le_refl _

theorem accumulateEntry_no_fuel (fl : Flags) (rs i : Nat) (st : Session) :
    accumulateEntry fl rs i st ≠ .error .outOfFuel := by
  unfold accumulateEntry
  split
  · simp
  · split
    · simp
    · split <;> simp

theorem accumulateLoop_no_fuel (fl : Flags) (rs k : Nat) :
    ∀ (i : Nat) (st : Session), accumulateLoop fl rs k i st ≠ .error .outOfFuel := by
  induction k with
  | zero => intro i st; simp [accumulateLoop]
  | succ k ih =>
    intro i st
    simp only [accumulateLoop]
    split
    · rename_i e he
      intro h
      cases h
      exact accumulateEntry_no_fuel fl rs i st he
    · exact ih _ _

/-- A round of the search that does not end in `break` leaves a smaller
`column_count`. -/
theorem probe_decreases (fl : Flags) (st st1 : Session) (hcc : 0 < st.column_count)
    (h : probe fl st = .ok (st1, false)) : st1.column_count < st.column_count := by
  unfold probe at h
  split at h
  · cases h
  · split at h
    · cases h
    · simp only at h
      split at h
      · cases h
      · rename_i st2 h2
        have hcc2 := accumulateLoop_column_count fl _ _ 0 _ st2 h2
        have hle := correction_column_count_le st
          (ceilDiv st.total_files (ceilDiv st.total_files st.column_count))
        split at h
        · cases h
        · split at h
          · cases h
            show st2.column_count - 1 < st.column_count
            omega
          · cases h

/-- The fuel of the search loop is never exhausted: starting with `column_count` at
most `fuel`, the loop ends in a state or in a fault of the program itself. -/
theorem searchLoop_fuel_suffices (fl : Flags) (fuel : Nat) :
    ∀ st : Session, st.column_count ≤ fuel →
      searchLoop fl fuel st ≠ .error .outOfFuel := by
  induction fuel with
  | zero =>
    intro st h
    have h0 : ¬ st.column_count > 1 := by omega
    simp [searchLoop, h0]
  | succ fuel ih =>
    intro st h
    simp only [searchLoop]
    split
    · rename_i hgt
      cases hp : probe fl st with
      | error e =>
        simp only
        intro he
        cases he
        -- the probe itself never reports exhausted fuel
        unfold probe at hp
        split at hp
        · cases hp
        · split at hp
          · cases hp
          · simp only at hp
            split at hp
            · rename_i e2 h2
              cases hp
              exact accumulateLoop_no_fuel fl _ _ 0 _ h2
            · split at hp
              · cases hp
              · split at hp <;> cases hp
      | ok r =>
        obtain ⟨st1, b⟩ := r
        cases b with
        | true => simp
        | false =>
          simp only
          exact ih st1 (by
            have := probe_decreases fl st st1 (by omega) hp
            omega)
    · simp

/-- The run of `calculateColumnCount` never ends for lack of fuel. -/
theorem calculateColumnCount_fuel_suffices (fl : Flags) (st : Session) :
    calculateColumnCount fl st ≠ .error .outOfFuel := by
  unfold calculateColumnCount
  split
  · rename_i e he
    intro h
    cases h
    exact searchLoop_fuel_suffices fl COL_MAX { st with column_count := COL_MAX }
      (le_refl _) he
  · simp

theorem storeEntry_blocks_indent (fl : Flags) (d_name : List Char)
    (statbuf : Stat) (gw uw : Nat) (st : Session) :
    st.blocks_indent ≤ (storeEntry fl d_name statbuf gw uw st).blocks_indent ∧
    countDigits statbuf.st_blocks ≤ (storeEntry fl d_name statbuf gw uw st).blocks_indent := by
  simp only [storeEntry]
  split <;> omega

theorem storeEntry_max_size (fl : Flags) (d_name : List Char)
    (statbuf : Stat) (gw uw : Nat) (st : Session) (hq : fl.Qflag = false) :
    st.max_size ≤ (storeEntry fl d_name statbuf gw uw st).max_size ∧
    (makeEntry fl d_name statbuf).size ≤ (storeEntry fl d_name statbuf gw uw st).max_size := by
  simp only [storeEntry, makeEntry, nameBufferLen, hq]
  simp only [Bool.false_eq_true, if_false]
  split <;> omega

/-- The running maxima kept by `dopath`: `blocks_indent` bounds the block digit count
of every collected entry and, without `-Q`, `max_size` bounds every display width. -/
theorem dopathLoop_maxima (fl : Flags) (env : Env) (members : List Member) :
    ∀ (statbuf : Stat) (st st1 : Session),
      (∀ f ∈ st.files, countDigits f.blocks ≤ st.blocks_indent) →
      (fl.Qflag = false → ∀ f ∈ st.files, f.size ≤ st.max_size) →
      dopathLoop fl env members statbuf st = .ok st1 →
      (∀ f ∈ st1.files, countDigits f.blocks ≤ st1.blocks_indent) ∧
      (fl.Qflag = false → ∀ f ∈ st1.files, f.size ≤ st1.max_size) := by
  induction members with
  | nil =>
    intro statbuf st st1 h1 h2 hrun
    simp only [dopathLoop] at hrun
    cases hrun
    exact ⟨h1, h2⟩
  | cons m rest ih =>
    intro statbuf st st1 h1 h2 hrun
    simp only [dopathLoop] at hrun
    split at hrun
    · exact ih statbuf st st1 h1 h2 hrun
    · split at hrun
      · cases hrun
      · rename_i st2 hc
        obtain ⟨gw, uw, hst2⟩ := collectEntry_ok fl env _ _ st st2 hc
        refine ih _ st2 st1 ?_ ?_ hrun
        · intro f hf
          rw [hst2, storeEntry_files, List.mem_append, List.mem_singleton] at hf
          have hb := storeEntry_blocks_indent fl m.d_name
            (match m.stat with | some s => s | none => statbuf) gw uw st
          rw [hst2]
          rcases hf with hf | hf
          · exact (h1 f hf).trans hb.1
          · subst hf
            exact hb.2
        · intro hq f hf
          rw [hst2, storeEntry_files, List.mem_append, List.mem_singleton] at hf
          have hb := storeEntry_max_size fl m.d_name
            (match m.stat with | some s => s | none => statbuf) gw uw st hq
          rw [hst2]
          rcases hf with hf | hf
          · exact (h2 hq f hf).trans hb.1
          · subst hf
            exact hb.2

/-- One round of the search for any setting of the flags: it ends without a fault,
leaves the corrected count after a `break` and one less after a rejection, and, when
the name width accumulators were zero on entry, leaves them at the column widths of
the probed layout after a `break` and at zero after a rejection. -/
theorem probe_general (fl : Flags) (st : Session) (hN : 0 < st.total_files)
    (hcc1 : 0 < st.column_count) (hcc : st.column_count ≤ COL_MAX) :
    ∃ st1 b, probe fl st = .ok (st1, b) ∧ Frame st st1 ∧
      st1.column_count
        = (if b then ceilDiv st.total_files (ceilDiv st.total_files st.column_count)
           else ceilDiv st.total_files (ceilDiv st.total_files st.column_count) - 1) ∧
      ((∀ j, st.col_indent j = 0) → ∀ j, st1.col_indent j
        = (if b then columnWidth fl st (ceilDiv st.total_files st.column_count) j else 0)) := by
  obtain ⟨hc_le, hc_pos, hc_rows⟩ := ceilDiv_correction st.total_files st.column_count hN hcc1
  have hr : 0 < ceilDiv st.total_files st.column_count := ceilDiv_pos _ _ hN hcc1
  generalize hrdef : ceilDiv st.total_files st.column_count = r at *
  generalize hcdef : ceilDiv st.total_files r = c at *
  have hst1_frame := frame_correction st c
  have hst1_cc : (if c < st.column_count then { st with column_count := c } else st).column_count
      = c := by
    split
    · rfl
    · omega
  have hst1_col : (if c < st.column_count then { st with column_count := c } else st).col_indent
      = st.col_indent := by
    split <;> rfl
  generalize hst1 : (if c < st.column_count then { st with column_count := c } else st) = st1
    at hst1_frame hst1_cc hst1_col
  have hst1_tot : st1.total_files = st.total_files := frame_total_files hst1_frame
  have hbound : ∀ p, p < st1.total_files → p / r < COL_MAX := by
    intro p hp
    rw [hst1_tot] at hp
    have := div_lt_ceilDiv st.total_files r p hr hp
    rw [hcdef] at this
    omega
  obtain ⟨st2, hloop, hf2, hcc2, hcol2⟩ :=
    accumulateLoop_ok fl r hr st1.total_files 0 st1 (by omega) hbound
  have hframe : Frame st st2 := frame_trans hst1_frame hf2
  have hcc2' : st2.column_count = c := hcc2.trans hst1_cc
  have hcolw : (∀ j, st.col_indent j = 0) → ∀ j, st2.col_indent j = columnWidth fl st r j := by
    intro hzero j
    obtain ⟨_, hge, hatt⟩ := hcol2 j
    rw [hst1_tot] at hge hatt
    unfold columnWidth
    apply columnMax_unique
    · intro p hp hj
      have := hge p (Nat.zero_le _) hp hj
      rwa [sizeAt_frame fl hst1_frame] at this
    · rcases hatt with heq | ⟨p, _, hp, hj, hpe⟩
      · left
        rw [heq, hst1_col, hzero j]
      · right
        exact ⟨p, hp, hj, by rw [← sizeAt_frame fl hst1_frame]; exact hpe⟩
  have hprobe : probe fl st =
      if ((rowLen fl st2 st2.column_count : Nat) : Int)
          + ((st2.column_count : Int) - 1) * 2 ≥ fl.win_cols then
        .ok ({ st2 with
                col_indent := clearFirst st2.column_count st2.col_indent
                column_count := st2.column_count - 1 }, false)
      else .ok (st2, true) := by
    have h0 : ¬ st.column_count = 0 := by omega
    have h1 : ¬ r = 0 := by omega
    have h2 : ¬ COL_MAX < st2.column_count := by omega
    unfold probe
    simp only [h0, h1, if_false, hrdef, hcdef, hst1]
    rw [hloop]
    simp only [h2, if_false]
  by_cases hge : ((rowLen fl st2 st2.column_count : Nat) : Int)
      + ((st2.column_count : Int) - 1) * 2 ≥ fl.win_cols
  · refine ⟨{ st2 with
                col_indent := clearFirst st2.column_count st2.col_indent
                column_count := st2.column_count - 1 }, false, ?_, ?_, ?_, ?_⟩
    · rw [hprobe, if_pos hge]
    · obtain ⟨a1, a2, a3, a4, a5, a6, a7, a8, a9, a10⟩ := hframe
      exact ⟨a1, a2, a3, a4, a5, a6, a7, a8, a9, a10⟩
    · show st2.column_count - 1 = _
      rw [hcc2']
      simp
    · intro hzero j
      show clearFirst st2.column_count st2.col_indent j = _
      rw [clearFirst_apply, hcc2']
      simp only [Bool.false_eq_true, if_false]
      split
      · rfl
      · rw [hcolw hzero j]
        unfold columnWidth
        apply columnMax_empty
        intro p hp hpj
        have := div_lt_ceilDiv st.total_files r p hr hp
        rw [hcdef] at this
        omega
  · refine ⟨st2, true, ?_, hframe, ?_, ?_⟩
    · rw [hprobe, if_neg hge]
    · rw [hcc2']
      simp
    · intro hzero j
      rw [hcolw hzero j]
      simp

/-- The instrumented loop runs exactly as `searchLoop` does. -/
theorem searchLoopRowSize_state (fl : Flags) (fuel : Nat) :
    ∀ (st : Session) (rs : Option Nat),
      (match searchLoopRowSize fl fuel st rs with
        | .error e => (.error e : Except Fault Session)
        | .ok (st1, _) => .ok st1) = searchLoop fl fuel st := by
  induction fuel with
  | zero =>
    intro st rs
    simp only [searchLoopRowSize, searchLoop]
    by_cases h : st.column_count > 1 <;> simp [h]
  | succ fuel ih =>
    intro st rs
    simp only [searchLoopRowSize, searchLoop]
    by_cases h : st.column_count > 1
    · simp only [h, if_true]
      cases hp : probe fl st with
      | error e => rfl
      | ok r =>
        obtain ⟨st1, b⟩ := r
        cases b with
        | true => rfl
        | false => exact ih st1 _
    · simp [h]

theorem searchLoopRowSize_general (fl : Flags) (fuel : Nat) :
    ∀ (st : Session) (rs : Option Nat), 0 < st.total_files → st.column_count ≤ fuel →
      st.column_count ≤ COL_MAX →
      ∃ st1 rs1, searchLoopRowSize fl fuel st rs = .ok (st1, rs1) ∧ Frame st st1 ∧
        st1.column_count ≤ st.column_count ∧
        (2 ≤ st.column_count → st1.column_count ≤ st.total_files) ∧
        (2 ≤ st.total_files → 1 ≤ st.column_count → 1 ≤ st1.column_count) ∧
        ((∀ j, st.col_indent j = 0) →
          ((st.column_count ≤ 1 ∧ st1.column_count = st.column_count ∧ rs1 = rs ∧
              ∀ j, st1.col_indent j = 0) ∨
           (2 ≤ st.column_count ∧ 1 ≤ st1.column_count ∧
              Achievable st.total_files st1.column_count ∧
              rs1 = some (ceilDiv st.total_files st1.column_count) ∧
              ∀ j, st1.col_indent j
                = columnWidth fl st (ceilDiv st.total_files st1.column_count) j) ∨
           (2 ≤ st.column_count ∧ st1.column_count ≤ 1 ∧ (∀ j, st1.col_indent j = 0) ∧
              Achievable st.total_files (st1.column_count + 1) ∧
              rs1 = some (ceilDiv st.total_files (st1.column_count + 1))))) := by
  induction fuel with
  | zero =>
    intro st rs _ hfuel _
    have h0 : ¬ st.column_count > 1 := by omega
    refine ⟨st, rs, ?_, frame_refl st, le_refl _, fun h => by omega, fun _ h => h,
      fun hzero => Or.inl ⟨by omega, rfl, rfl, hzero⟩⟩
    simp [searchLoopRowSize, h0]
  | succ fuel ih =>
    intro st rs hN hfuel hmax
    by_cases hgt : st.column_count > 1
    · obtain ⟨st1, b, hp, hfr, hcc, hcol⟩ := probe_general fl st hN (by omega) hmax
      obtain ⟨hc_le, hc_pos, hc_rows⟩ :=
        ceilDiv_correction st.total_files st.column_count hN (by omega)
      have hr : 0 < ceilDiv st.total_files st.column_count :=
        ceilDiv_pos _ _ hN (by omega)
      have hc_N : ceilDiv st.total_files (ceilDiv st.total_files st.column_count)
          ≤ st.total_files := ceilDiv_le_self _ _ hr
      have hach : Achievable st.total_files
          (ceilDiv st.total_files (ceilDiv st.total_files st.column_count)) := by
        unfold Achievable
        rw [hc_rows]
      cases b with
      | true =>
        simp only [if_true] at hcc hcol
        refine ⟨st1, some (ceilDiv st.total_files st.column_count), ?_, hfr, by omega,
          fun _ => by omega, fun _ _ => by omega, fun hzero => Or.inr (Or.inl ?_)⟩
        · simp only [searchLoopRowSize, hgt, if_true, hp]
        · rw [hcc]
          refine ⟨hgt, hc_pos, hach, by rw [hc_rows], ?_⟩
          rw [hc_rows]
          exact hcol hzero
      | false =>
        simp only [Bool.false_eq_true, if_false] at hcc hcol
        have htot : st1.total_files = st.total_files := frame_total_files hfr
        obtain ⟨st2, rs2, hs, hfr2, hcc2, hN2, hlow2, hcase⟩ :=
          ih st1 (some (ceilDiv st.total_files st.column_count))
            (by rw [htot]; exact hN) (by omega) (by omega)
        rw [htot] at hN2 hlow2 hcase
        refine ⟨st2, rs2, ?_, frame_trans hfr hfr2, by omega, fun _ => by omega, ?_, ?_⟩
        · simp only [searchLoopRowSize, hgt, if_true, hp]
          exact hs
        · intro h2 _
          have := correction_ge_two st.total_files st.column_count h2 hgt
          exact hlow2 h2 (by omega)
        · intro hzero
          have hplus : ceilDiv st.total_files (ceilDiv st.total_files st.column_count) - 1 + 1
              = ceilDiv st.total_files (ceilDiv st.total_files st.column_count) := by omega
          rcases hcase (hcol hzero) with ⟨h1, h2, h3, h4⟩ | ⟨h1, h2, h3, h4, h5⟩ |
            ⟨h1, h2, h3, h4, h5⟩
          · right; right
            refine ⟨hgt, by omega, h4, ?_, ?_⟩
            · rw [h2, hcc, hplus]
              exact hach
            · rw [h3, h2, hcc, hplus, hc_rows]
          · right; left
            refine ⟨hgt, h2, h3, h4, ?_⟩
            intro j
            rw [h5 j, columnWidth_frame fl hfr]
          · right; right
            exact ⟨hgt, h2, h3, h4, h5⟩
    · refine ⟨st, rs, ?_, frame_refl st, le_refl _, fun h => by omega, fun _ h => h,
        fun hzero => Or.inl ⟨by omega, rfl, rfl, hzero⟩⟩
      simp [searchLoopRowSize, hgt]

/-- What `calculateColumnCount` does for a non-empty entry list under any flags: it
ends without a fault, changes only `column_count` and the accumulators, and leaves
`column_count` at most `min(COL_MAX, N)`, at least one when there are two or more
entries.  When the name width accumulators start at zero, a final count of two or more
comes with the column widths of its layout in `col_indent` and with `row_size` equal
to its row count; a final count of one comes with `max_size` in `col_indent[0]`; a
final count of zero occurs only for a single entry. -/
theorem calculateColumnCount_general (fl : Flags) (st : Session) (hN : 0 < st.total_files) :
    ∃ st1, calculateColumnCount fl st = .ok st1 ∧ Frame st st1 ∧
      st1.column_count ≤ COL_MAX ∧ st1.column_count ≤ st.total_files ∧
      (2 ≤ st.total_files → 1 ≤ st1.column_count) ∧
      ((∀ j, st.col_indent j = 0) →
        ((2 ≤ st1.column_count ∧ Achievable st.total_files st1.column_count ∧
            lastRowSize fl st = some (ceilDiv st.total_files st1.column_count) ∧
            ∀ j, st1.col_indent j
              = columnWidth fl st (ceilDiv st.total_files st1.column_count) j) ∨
         (st1.column_count = 1 ∧ st1.col_indent 0 = st.max_size) ∨
         (st1.column_count = 0 ∧ st.total_files = 1))) := by
  have hfr0 : Frame st { st with column_count := COL_MAX } :=
    ⟨rfl, rfl, rfl, rfl, rfl, rfl, rfl, rfl, rfl, rfl⟩
  have htot0 : ({ st with column_count := COL_MAX } : Session).total_files = st.total_files :=
    rfl
  have hcc0 : ({ st with column_count := COL_MAX } : Session).column_count = COL_MAX := rfl
  obtain ⟨st1, rs1, hs, hfr, hcc, hle, hlow, hcase⟩ :=
    searchLoopRowSize_general fl COL_MAX { st with column_count := COL_MAX } none hN
      (le_refl _) (le_refl _)
  rw [htot0] at hle hlow hcase
  rw [hcc0] at hcc hle hlow hcase
  have hCM : 2 ≤ COL_MAX := by decide
  have hsearch : searchLoop fl COL_MAX { st with column_count := COL_MAX } = .ok st1 := by
    rw [← searchLoopRowSize_state fl COL_MAX _ none, hs]
  have hlast : lastRowSize fl st = rs1 := by
    simp only [lastRowSize, hs]
  have hcw : ∀ rows j, columnWidth fl { st with column_count := COL_MAX } rows j
      = columnWidth fl st rows j := fun rows j => columnWidth_frame fl hfr0 rows j
  have hmax1 : st1.max_size = st.max_size := hfr.2.1
  by_cases h1 : st1.column_count = 1
  · refine ⟨{ st1 with col_indent := setAt st1.col_indent 0 st1.max_size }, ?_, ?_, hcc,
      hle hCM, fun _ => by show 1 ≤ st1.column_count; omega, fun _ => Or.inr (Or.inl ⟨h1, ?_⟩)⟩
    · simp only [calculateColumnCount, hsearch, h1, if_true]
    · obtain ⟨a1, a2, a3, a4, a5, a6, a7, a8, a9, a10⟩ := frame_trans hfr0 hfr
      exact ⟨a1, a2, a3, a4, a5, a6, a7, a8, a9, a10⟩
    · show setAt st1.col_indent 0 st1.max_size 0 = st.max_size
      simp [setAt, hmax1]
  · refine ⟨st1, ?_, frame_trans hfr0 hfr, hcc, hle hCM, fun h => hlow h (by omega), ?_⟩
    · simp only [calculateColumnCount, hsearch, h1, if_false]
    · intro hzero
      rcases hcase hzero with ⟨h, _⟩ | ⟨_, h2, h3, h4, h5⟩ | ⟨_, h2, _, _, _⟩
      · omega
      · left
        refine ⟨by omega, h3, by rw [hlast, h4], ?_⟩
        intro j
        rw [h5 j, hcw]
      · right; right
        have h0 : st1.column_count = 0 := by omega
        refine ⟨h0, ?_⟩
        by_contra hne
        have := hlow (by omega) (by omega)
        omega

/-- C12, run on the failing input. A directory without listed entries in grid mode:
with a terminal width of 80 `calculateColumnCount` computes `row_size = 0` and divides
by it; with width 0 `column_count` is 0 and `printDir` divides by it.  The same holds
for a directory whose only members are hidden.  Only the long format prints the
empty listing. -/
theorem empty_directory_divides_by_zero :
    faultOf (calculateColumnCount { win_cols := 80 } initializeFiles) = some .divByZero ∧
    faultOf (listDirectory { win_cols := 80 } sampleEnv [] sampleStat) = some .divByZero ∧
    faultOf (listDirectory { win_cols := 0 } sampleEnv [] sampleStat) = some .divByZero ∧
    faultOf (listDirectory { win_cols := 80 } sampleEnv
      [sampleMember ".", sampleMember ".."] sampleStat) = some .divByZero ∧
    (listDirectory { lflag := true, line_format := true, win_cols := 80 } sampleEnv []
      sampleStat).toOption = some "total 0\n\n".toList := by
  decide!

/-- C17, run on the failing input. A single entry `abc` in a terminal of width 3: the
correction sets `column_count` to 1 inside the loop, the layout does not fit, the
rejection decrements `column_count` to 0, and `printDir` divides by it. -/
theorem single_entry_column_count_zero :
    chosenColumnCount { win_cols := 3 } (sampleSession [sampleFile "abc" 1 8] 3 1 1)
      = some 0 ∧
    faultOf (renderDirectory { win_cols := 3 } sampleEnv
      (sampleSession [sampleFile "abc" 1 8] 3 1 1)) = some .divByZero ∧
    faultOf (listDirectory { win_cols := 3 } sampleEnv [sampleMember "abc"] sampleStat)
      = some .divByZero := by
  decide!

/-- C16, run on the failing input. Four entries with one-character names and inode
digit counts 1, 7, 1, 1 under `-i` in a terminal of width 20.  The candidate with 4
columns is rejected; at the probe of 2 columns `col_indent_inode[1]` still holds the 7
of entry `b`, which now sits in column 0, while the entries of column 1 need 1; the
row length comes out as 20 instead of 14, the layout is rejected and `column_count`
ends at 1. -/
theorem stale_inode_accumulator :
    inodeAccumulators { iflag := true, win_cols := 20 } fourInodes 4 = some [7, 7, 1, 1] ∧
    columnInodeWidth { iflag := true, win_cols := 20 } fourInodes 2 0 = 7 ∧
    columnInodeWidth { iflag := true, win_cols := 20 } fourInodes 2 1 = 1 ∧
    layoutWidth { iflag := true, win_cols := 20 } fourInodes 2 = 14 ∧
    Fits { iflag := true, win_cols := 20 } fourInodes 2 ∧
    Achievable fourInodes.total_files 2 ∧
    chosenColumnCount { iflag := true, win_cols := 20 } fourInodes = some 1 := by
  decide!

/-- C15, run on the failing input. With `-Q` the members `ab` and `abc` are stored with
the display widths 4 and 5, but `max_size` stays 4: the test compares the bare name
`abc` (length 3) with `max_size`. -/
theorem max_size_below_widest_quoted_name :
    (dopath { Qflag := true } sampleEnv [sampleMember "ab", sampleMember "abc"] sampleStat
      initializeFiles).toOption.map Session.max_size = some 4 ∧
    (dopath { Qflag := true } sampleEnv [sampleMember "ab", sampleMember "abc"] sampleStat
      initializeFiles).toOption.map (fun st => st.files.map FileInfo.size) = some [4, 5] := by
  decide!

theorem ceilDiv_self (n : Nat) (hn : 0 < n) : ceilDiv n n = 1 :=
  ceilDiv_of_le n n hn (le_refl n)

theorem renderOrder_column_count (fl : Flags) (st : Session) (c : Nat) :
    renderOrder fl { st with column_count := c } = renderOrder fl st := rfl

/-- The single row printed when `win_cols` is zero and `column_count` is the number of
entries: from column `j` on, the plain cells of the remaining entries joined by two
spaces. -/
theorem gridRowFrom_zero_width (fl : Flags) (st : Session) (hw : fl.win_cols = 0)
    (hcc : st.column_count = st.total_files) (k : Nat) :
    ∀ j, j + k = st.total_files →
      gridRowFrom fl st 1 0 k j
        = .ok (joinCells (((renderOrder fl st).drop j).map (plainCell fl st))) := by
  induction k with
  | zero =>
    intro j hj
    have hlen := renderOrder_length fl st
    have : (renderOrder fl st).drop j = [] := List.drop_eq_nil_of_le (by omega)
    simp [gridRowFrom, this, joinCells]
  | succ k ih =>
    intro j hj
    have hlen := renderOrder_length fl st
    have hjN : j < st.total_files := by omega
    have hb : j < (renderOrder fl st).length := by omega
    have hdrop : (renderOrder fl st).drop j
        = (renderOrder fl st)[j] :: (renderOrder fl st).drop (j + 1) :=
      List.drop_eq_getElem_cons hb
    have hentry : gridEntry fl st 1 0 j = some ((renderOrder fl st)[j]) := by
      unfold gridEntry
      have h1 : 0 + j * 1 = j := by omega
      rw [h1, if_pos hjN, renderOrder_getElem? fl st j hjN]
      exact List.getElem?_eq_getElem hb
    have hcell : cellText fl st 1 0 j ((renderOrder fl st)[j])
        = .ok (plainCell fl st ((renderOrder fl st)[j])) := by
      simp [cellText, hw, plainCell]
    have hnl : ¬ (j + 1 = st.column_count ∧ 0 + 1 < 1) := by omega
    rw [gridRowFrom, ih (j + 1) (by omega)]
    simp only [gridCell, hentry, hcell, hnl, if_false, hdrop, List.map_cons]
    by_cases hlast : j + 1 < st.column_count
    · simp only [hlast, if_true]
      have hb2 : j + 1 < (renderOrder fl st).length := by omega
      have hdrop2 : (renderOrder fl st).drop (j + 1)
          = (renderOrder fl st)[j + 1] :: (renderOrder fl st).drop (j + 1 + 1) :=
        List.drop_eq_getElem_cons hb2
      rw [hdrop2]
      simp only [List.map_cons, joinCells, List.append_assoc]
    · simp only [hlast, if_false]
      have : (renderOrder fl st).drop (j + 1) = [] := List.drop_eq_nil_of_le (by omega)
      simp [this, joinCells]

theorem printDir_zero_width (fl : Flags) (env : Env) (st : Session) (hw : fl.win_cols = 0)
    (hline : fl.line_format = false) (hcc : st.column_count = st.total_files)
    (hN : 0 < st.total_files) :
    printDir fl env st
      = .ok (joinCells ((renderOrder fl st).map (plainCell fl st)) ++ ['\n']) := by
  have hne : ¬ st.column_count = 0 := by omega
  have hrow := gridRowFrom_zero_width fl st hw hcc st.total_files 0 (by omega)
  have hone : ceilDiv st.total_files st.column_count = 1 := by
    rw [hcc]
    exact ceilDiv_self _ hN
  simp only [printDir, hline, hne, hone, gridRowsFrom, gridRow, if_false, Bool.false_eq_true]
  rw [hcc, hrow]
  simp

/-- C13. With a terminal width of zero the layout search is bypassed and
`column_count` is the number of entries, for every entry list; for a non-empty list
the row count is `ceil(N / N) = 1` and `printDir` prints a single row: all `N` entries
in render order, each as inode field, block field and name without any pad, two
spaces between neighbours, and the final newline. -/
theorem zero_width_single_row (fl : Flags) (env : Env) (st : Session)
    (hw : fl.win_cols = 0) :
    layoutDirectory fl st = .ok { st with column_count := st.total_files } ∧
    (0 < st.total_files → ceilDiv st.total_files st.total_files = 1) ∧
    (fl.line_format = false → 0 < st.total_files →
      renderDirectory fl env st
        = .ok (joinCells ((renderOrder fl st).map (plainCell fl st)) ++ ['\n'])) ∧
    (renderDirectory { win_cols := 0 } sampleEnv fiveMixedNames).toOption
      = some "aaa  bbbbb  cc  dddddddd  e\n".toList := by
  have hlayout : layoutDirectory fl st = .ok { st with column_count := st.total_files } := by
    simp [layoutDirectory, hw]
  refine ⟨hlayout, fun h => ceilDiv_self _ h, ?_, by decide!⟩
  intro hline hN
  have hp := printDir_zero_width fl env { st with column_count := st.total_files } hw hline
    rfl hN
  simp only [renderDirectory, hlayout]
  exact hp

theorem zero_width_single_row_witness :
    layoutDirectory { win_cols := 0 } fiveMixedNames
      = .ok { fiveMixedNames with column_count := fiveMixedNames.total_files } ∧
    (0 < fiveMixedNames.total_files →
      ceilDiv fiveMixedNames.total_files fiveMixedNames.total_files = 1) ∧
    (({ win_cols := 0 } : Flags).line_format = false → 0 < fiveMixedNames.total_files →
      renderDirectory { win_cols := 0 } sampleEnv fiveMixedNames
        = .ok (joinCells ((renderOrder { win_cols := 0 } fiveMixedNames).map
            (plainCell { win_cols := 0 } fiveMixedNames)) ++ ['\n'])) ∧
    (renderDirectory { win_cols := 0 } sampleEnv fiveMixedNames).toOption
      = some "aaa  bbbbb  cc  dddddddd  e\n".toList :=
  zero_width_single_row { win_cols := 0 } sampleEnv fiveMixedNames rfl

/-- A width of `2^32` is accepted and wraps to 0 when the `long` is stored in the
`int` variable `win_cols`. -/
theorem width_option_wraps :
    (widthOption 80 (some "4294967296".toList)).toOption = some 0 ∧
    (widthOption 80 (some "120".toList)).toOption = some 120 ∧
    (widthOption 80 (some "12a".toList)).toOption = none := by
  decide!

theorem filterMap_range_offset {α : Type} (X : List α) (a L : Nat) :
    (List.range L).filterMap (fun i => X[i + a]?) = (X.drop a).take L := by
  induction L with
  | zero => simp
  | succ n ih =>
    rw [List.range_succ, List.filterMap_append, ih, List.take_succ, List.getElem?_drop,
      Nat.add_comm a n]
    cases h : X[n + a]? <;> simp [h]

theorem getElem?_range_eq (N p : Nat) :
    (List.range N)[p]? = if p < N then some p else none := by
  by_cases h : p < N
  · rw [if_pos h]
    exact List.getElem?_range h
  · rw [if_neg h]
    exact List.getElem?_eq_none (by simpa using Nat.le_of_not_lt h)

theorem columnPositions_eq (N L j : Nat) :
    columnPositions N L j = ((List.range N).drop (j * L)).take L := by
  unfold columnPositions
  rw [← filterMap_range_offset]
  apply List.filterMap_congr
  intro i _
  rw [getElem?_range_eq]

theorem drop_take_range (N a L : Nat) :
    ((List.range N).drop a).take L = List.range' a (min L (N - a)) := by
  apply List.ext_getElem?
  intro k
  by_cases hk : k < min L (N - a)
  · have h1 : k < L := lt_of_lt_of_le hk (min_le_left _ _)
    have h2 : k < N - a := lt_of_lt_of_le hk (min_le_right _ _)
    rw [List.getElem?_range' _ _ hk, List.getElem?_take_of_lt h1, List.getElem?_drop,
      getElem?_range_eq, if_pos (by omega)]
    simp
  · have hr : (List.range' a (min L (N - a)))[k]? = none :=
      List.getElem?_eq_none (by simp; omega)
    rw [hr]
    by_cases h1 : k < L
    · rw [List.getElem?_take_of_lt h1, List.getElem?_drop, getElem?_range_eq,
        if_neg (by omega)]
    · exact List.getElem?_eq_none (by simp; omega)

theorem gridEntry_eq_getElem? (fl : Flags) (st : Session) (L i j : Nat) :
    gridEntry fl st L i j = (renderOrder fl st)[i + j * L]? := by
  unfold gridEntry
  by_cases h : i + j * L < st.total_files
  · rw [if_pos h, renderOrder_getElem? fl st _ h]
  · rw [if_neg h]
    exact (List.getElem?_eq_none (by rw [renderOrder_length]; omega)).symm

theorem flatten_map_toList {α β : Type} (g : β → Option α) (l : List β) :
    (l.map (fun x => (g x).toList)).flatten = l.filterMap g := by
  induction l with
  | nil => rfl
  | cons x rest ih =>
    simp only [List.map_cons, List.flatten_cons, ih, List.filterMap_cons]
    cases g x <;> rfl

theorem flatten_map_append_perm {α β : Type} (A B : β → List α) (l : List β) :
    (l.map (fun x => A x ++ B x)).flatten.Perm ((l.map A).flatten ++ (l.map B).flatten) := by
  induction l with
  | nil => simp
  | cons x rest ih =>
    simp only [List.map_cons, List.flatten_cons, List.append_assoc]
    exact (List.Perm.append_left (A x) ((List.Perm.append_left (B x) ih).trans
      (List.perm_append_comm_assoc _ _ _)))

/-- Reading a partial grid row by row or column by column yields the same cells up to
order. -/
theorem flatten_transpose_perm {α : Type} (f : Nat → Nat → Option α) (a b : Nat) :
    ((List.range a).map (fun i => (List.range b).filterMap (fun j => f i j))).flatten.Perm
      ((List.range b).map (fun j => (List.range a).filterMap (fun i => f i j))).flatten := by
  induction a with
  | zero =>
    have : ((List.range b).map (fun j => (List.range 0).filterMap (fun i => f i j))).flatten
        = [] := by
      induction (List.range b) with
      | nil => rfl
      | cons x rest ih => simp
    rw [this]
    simp
  | succ a ih =>
    have hcols : (List.range b).map (fun j => (List.range (a + 1)).filterMap (fun i => f i j))
        = (List.range b).map
          (fun j => (List.range a).filterMap (fun i => f i j) ++ (f a j).toList) := by
      apply List.map_congr_left
      intro j _
      rw [List.range_succ, List.filterMap_append]
      cases h : f a j <;> simp [h]
    rw [hcols, List.range_succ, List.map_append, List.flatten_append]
    simp only [List.map_cons, List.map_nil, List.flatten_cons, List.flatten_nil,
      List.append_nil]
    refine (List.Perm.append_right _ ih).trans ?_
    rw [← flatten_map_toList (fun j => f a j) (List.range b)]
    exact (flatten_map_append_perm _ _ _).symm

theorem columns_cover_range (N c : Nat) (hc : 0 < c) :
    ((List.range c).map (fun j => columnPositions N (ceilDiv N c) j)).flatten
      = List.range N := by
  have h : (List.range c).map (fun j => columnPositions N (ceilDiv N c) j)
      = (List.range c).map
        (fun j => ((List.range N).drop (j * ceilDiv N c)).take (ceilDiv N c)) := by
    apply List.map_congr_left
    intro j _
    exact columnPositions_eq N _ j
  rw [h, flatten_columns]
  apply List.take_of_length_le
  rw [List.length_range]
  exact le_mul_ceilDiv N c hc

/-- C19, as stated, fails.  Two entries of width 3 in a terminal of width 5: the only
probe has 2 columns and `row_size = 1`; it is rejected, `column_count` falls back to 1,
and `printDir` recomputes a row count of `ceil(2 / 1) = 2`, not 1. -/
theorem row_count_differs_counterexample :
    chosenColumnCount { win_cols := 5 } twoWideNames = some 1 ∧
    lastRowSize { win_cols := 5 } twoWideNames = some 1 ∧
    ceilDiv twoWideNames.total_files 1 = 2 := by
  decide!

/-- C19, amended. For a non-empty entry list, under any flags and any width, with the
name accumulators zeroed, cached widths equal to the name lengths and `max_size` at
least every display width: when the search ends with two or more columns, the row
count `printDir` recomputes, `ceil(N / column_count)`, is the `row_size` of the last
probe and `col_indent[j]` is the largest width in grid column `j`; when it ends with
one column, `col_indent[0]` is `max_size`; in both cases every printed entry is at
most as wide as `col_indent` of its column and the pad width
`col_indent[...] - strlen(name)` is not negative. -/
theorem layout_render_agreement (fl : Flags) (st : Session) (hN : 0 < st.total_files)
    (hzero : ∀ j, st.col_indent j = 0)
    (hsize : ∀ f ∈ st.files, f.size = f.name.length)
    (hmax : ∀ f ∈ st.files, f.size ≤ st.max_size) :
    ∃ st1, calculateColumnCount fl st = .ok st1 ∧
      (2 ≤ st1.column_count →
        lastRowSize fl st = some (ceilDiv st.total_files st1.column_count) ∧
        ∀ j, st1.col_indent j
          = columnWidth fl st (ceilDiv st.total_files st1.column_count) j) ∧
      (st1.column_count = 1 → st1.col_indent 0 = st.max_size) ∧
      (1 ≤ st1.column_count → ∀ i j f,
        i < ceilDiv st.total_files st1.column_count → j < st1.column_count →
        gridEntry fl st1 (ceilDiv st.total_files st1.column_count) i j = some f →
        f.size ≤ st1.col_indent
            ((i + j * ceilDiv st.total_files st1.column_count)
              / ceilDiv st.total_files st1.column_count) ∧
        0 ≤ (st1.col_indent
            ((i + j * ceilDiv st.total_files st1.column_count)
              / ceilDiv st.total_files st1.column_count) : Int) - (f.name.length : Int)) := by
  obtain ⟨st1, hs, hfr, _, _, _, hcase⟩ := calculateColumnCount_general fl st hN
  have hfiles : st1.files = st.files := hfr.1
  have htot : st1.total_files = st.total_files := frame_total_files hfr
  refine ⟨st1, hs, ?_, ?_, ?_⟩
  · intro h2
    rcases hcase hzero with ⟨_, _, h3, h4⟩ | ⟨h, _⟩ | ⟨h, _⟩
    · exact ⟨h3, h4⟩
    · omega
    · omega
  · intro h1
    rcases hcase hzero with ⟨h, _⟩ | ⟨_, h⟩ | ⟨h, _⟩
    · omega
    · exact h
    · omega
  · intro h1 i j f hiL hj hge
    have hL : 0 < ceilDiv st.total_files st1.column_count := by omega
    have hidx : (i + j * ceilDiv st.total_files st1.column_count)
        / ceilDiv st.total_files st1.column_count = j := by
      rw [Nat.add_mul_div_right _ _ hL, Nat.div_eq_of_lt hiL, Nat.zero_add]
    have hmem : f ∈ st.files := hfiles ▸ gridEntry_mem fl st1 _ i j f hge
    have hle : f.size ≤ st1.col_indent j := by
      rcases hcase hzero with ⟨_, _, _, hcol⟩ | ⟨hc1, hcol0⟩ | ⟨h, _⟩
      · have hpos := (gridEntry_some fl st1 _ i j f hge).1
        rw [htot] at hpos
        have hsz : sizeAt fl st (i + j * ceilDiv st.total_files st1.column_count) = f.size := by
          rw [← sizeAt_frame fl hfr]
          exact gridEntry_sizeAt fl st1 _ i j f hge
        have := columnMax_ge (sizeAt fl st) st.total_files
          (ceilDiv st.total_files st1.column_count) j _ hpos hidx
        rw [hcol j, ← hsz]
        exact this
      · have hj0 : j = 0 := by omega
        rw [hj0, hcol0]
        exact hmax f hmem
      · omega
    rw [hidx]
    refine ⟨hle, ?_⟩
    have := hsize f hmem
    omega

theorem layout_render_agreement_witness :
    ∃ st1, calculateColumnCount { win_cols := 20 } fiveMixedNames = .ok st1 ∧
      (2 ≤ st1.column_count →
        lastRowSize { win_cols := 20 } fiveMixedNames
          = some (ceilDiv fiveMixedNames.total_files st1.column_count) ∧
        ∀ j, st1.col_indent j
          = columnWidth { win_cols := 20 } fiveMixedNames
              (ceilDiv fiveMixedNames.total_files st1.column_count) j) ∧
      (st1.column_count = 1 → st1.col_indent 0 = fiveMixedNames.max_size) ∧
      (1 ≤ st1.column_count → ∀ i j f,
        i < ceilDiv fiveMixedNames.total_files st1.column_count → j < st1.column_count →
        gridEntry { win_cols := 20 } st1
          (ceilDiv fiveMixedNames.total_files st1.column_count) i j = some f →
        f.size ≤ st1.col_indent
            ((i + j * ceilDiv fiveMixedNames.total_files st1.column_count)
              / ceilDiv fiveMixedNames.total_files st1.column_count) ∧
        0 ≤ (st1.col_indent
            ((i + j * ceilDiv fiveMixedNames.total_files st1.column_count)
              / ceilDiv fiveMixedNames.total_files st1.column_count) : Int)
          - (f.name.length : Int)) :=
  layout_render_agreement { win_cols := 20 } fiveMixedNames (by decide) (fun _ => rfl)
    (by decide) (by decide)

/-- C20. Accumulator index safety: for a non-empty entry list `calculateColumnCount`
ends without a fault (no division by zero, no accumulator access outside the
`COL_MAX` slots) and with `column_count` at most `COL_MAX`; at a probe entered with any
`column_count` from 2 to `COL_MAX`, `row_size` is at least 1, the corrected count is
at most `column_count`, and every index `i / row_size` for `i < N` is below the
corrected count, hence below `COL_MAX`. -/
theorem accumulator_index_safety (fl : Flags) (st : Session) (hN : 1 ≤ st.total_files) :
    (∃ st1, calculateColumnCount fl st = .ok st1 ∧ st1.column_count ≤ COL_MAX) ∧
    (∀ cc, 2 ≤ cc → cc ≤ COL_MAX →
      1 ≤ ceilDiv st.total_files cc ∧
      ceilDiv st.total_files (ceilDiv st.total_files cc) ≤ cc ∧
      ∀ i, i < st.total_files →
        i / ceilDiv st.total_files cc < ceilDiv st.total_files (ceilDiv st.total_files cc) ∧
        i / ceilDiv st.total_files cc < COL_MAX) := by
  obtain ⟨st1, hs, _, hc, _, _, _⟩ := calculateColumnCount_general fl st hN
  refine ⟨⟨st1, hs, hc⟩, ?_⟩
  intro cc h2 hmax
  obtain ⟨hle, _, _⟩ := ceilDiv_correction st.total_files cc hN (by omega)
  have hr : 0 < ceilDiv st.total_files cc := ceilDiv_pos _ _ hN (by omega)
  refine ⟨hr, hle, ?_⟩
  intro i hi
  have := div_lt_ceilDiv st.total_files (ceilDiv st.total_files cc) i hr hi
  exact ⟨this, by omega⟩

theorem accumulator_index_safety_witness :
    (∃ st1, calculateColumnCount { iflag := true, sflag := true, win_cols := 20 }
        fiveMixedNames = .ok st1 ∧ st1.column_count ≤ COL_MAX) ∧
    (∀ cc, 2 ≤ cc → cc ≤ COL_MAX →
      1 ≤ ceilDiv fiveMixedNames.total_files cc ∧
      ceilDiv fiveMixedNames.total_files (ceilDiv fiveMixedNames.total_files cc) ≤ cc ∧
      ∀ i, i < fiveMixedNames.total_files →
        i / ceilDiv fiveMixedNames.total_files cc
          < ceilDiv fiveMixedNames.total_files (ceilDiv fiveMixedNames.total_files cc) ∧
        i / ceilDiv fiveMixedNames.total_files cc < COL_MAX) :=
  accumulator_index_safety { iflag := true, sflag := true, win_cols := 20 } fiveMixedNames
    (by decide)

theorem dopathLoop_cons_listed (fl : Flags) (env : Env) (m : Member) (rest : List Member)
    (statbuf : Stat) (st : Session) (hsk : skipped fl m.d_name = false) :
    dopathLoop fl env (m :: rest) statbuf st =
      (match collectEntry fl env m.d_name (m.stat.getD statbuf) st with
       | .error e => .error e
       | .ok st1 => dopathLoop fl env rest (m.stat.getD statbuf) st1) := by
  simp only [dopathLoop, hsk, Bool.false_eq_true, if_false]
  cases m.stat <;> rfl

theorem dopathLoop_cons_skipped (fl : Flags) (env : Env) (m : Member) (rest : List Member)
    (statbuf : Stat) (st : Session) (hsk : skipped fl m.d_name = true) :
    dopathLoop fl env (m :: rest) statbuf st = dopathLoop fl env rest statbuf st := by
  simp only [dopathLoop, hsk, if_true]

/-- The loop of `dopath` on members with proper names: when `-n` is set or the ids of
every listed member resolve, it returns with one entry appended for every listed
member, in `readdir` order; without `-n`, a listed member with an id that does not
resolve ends it at a null pointer. -/
theorem dopathLoop_listed (fl : Flags) (env : Env) (members : List Member)
    (hnames : ∀ m ∈ members, IsCString m.d_name) :
    ∀ (statbuf : Stat) (st : Session),
      ((fl.nflag = true ∨ ∀ f ∈ listedEntries fl members statbuf, resolves env f = true) →
        ∃ st1, dopathLoop fl env members statbuf st = .ok st1 ∧
          st1.files = st.files ++ listedEntries fl members statbuf) ∧
      (fl.nflag = false →
        (∃ f ∈ listedEntries fl members statbuf, resolves env f = false) →
        dopathLoop fl env members statbuf st = .error .nullPointer) := by
  induction members with
  | nil =>
    intro statbuf st
    constructor
    · intro _
      exact ⟨st, rfl, by simp [listedEntries]⟩
    · intro _ h
      simp [listedEntries] at h
  | cons m rest ih =>
    intro statbuf st
    have hm : IsCString m.d_name := hnames m (List.mem_cons_self _ _)
    have hrest : ∀ m1 ∈ rest, IsCString m1.d_name :=
      fun m1 h1 => hnames m1 (List.mem_cons_of_mem _ h1)
    have hs := skipped_eq_false_iff fl m.d_name hm
    by_cases hl : listedSpec fl.aflag fl.Aflag m.d_name
    · have hsk : skipped fl m.d_name = false := hs.mpr hl
      have hle : listedEntries fl (m :: rest) statbuf
          = makeEntry fl m.d_name (m.stat.getD statbuf)
            :: listedEntries fl rest (m.stat.getD statbuf) := by
        simp only [listedEntries, hl, if_true]
      rw [hle, dopathLoop_cons_listed fl env m rest statbuf st hsk]
      have hce := collectEntry_returns fl env m.d_name (m.stat.getD statbuf) st
      constructor
      · intro hres
        have hret : ∃ st2, collectEntry fl env m.d_name (m.stat.getD statbuf) st = .ok st2 := by
          apply hce.1
          rcases hres with h | h
          · exact Or.inl h
          · have := h _ (List.mem_cons_self _ _)
            simp only [resolves, makeEntry, Bool.and_eq_true] at this
            exact Or.inr this
        obtain ⟨st2, h2⟩ := hret
        have hf2 := collectEntry_files fl env _ _ st st2 h2
        obtain ⟨st1, h1, hf1⟩ := (ih hrest (m.stat.getD statbuf) st2).1 (by
          rcases hres with h | h
          · exact Or.inl h
          · exact Or.inr (fun f hf => h f (List.mem_cons_of_mem _ hf)))
        refine ⟨st1, ?_, ?_⟩
        · rw [h2]
          exact h1
        · rw [hf1, hf2]
          simp
      · intro hn hex
        by_cases hr : resolves env (makeEntry fl m.d_name (m.stat.getD statbuf)) = true
        · have hret : ∃ st2, collectEntry fl env m.d_name (m.stat.getD statbuf) st = .ok st2 := by
            apply hce.1
            simp only [resolves, makeEntry, Bool.and_eq_true] at hr
            exact Or.inr hr
          obtain ⟨st2, h2⟩ := hret
          rw [h2]
          apply (ih hrest (m.stat.getD statbuf) st2).2 hn
          obtain ⟨f, hf, hfr⟩ := hex
          rcases List.mem_cons.mp hf with hf | hf
          · subst hf
            rw [hr] at hfr
            cases hfr
          · exact ⟨f, hf, hfr⟩
        · have hfault : collectEntry fl env m.d_name (m.stat.getD statbuf) st
              = .error .nullPointer := by
            apply hce.2 hn
            simp only [resolves, makeEntry, Bool.and_eq_true, not_and_or] at hr
            rcases hr with h | h
            · left; simpa using h
            · right; simpa using h
          rw [hfault]
    · have hsk : skipped fl m.d_name = true := by
        cases h : skipped fl m.d_name
        · exact absurd (hs.mp h) hl
        · rfl
      have hle : listedEntries fl (m :: rest) statbuf = listedEntries fl rest statbuf := by
        simp only [listedEntries, hl, if_false]
      rw [hle, dopathLoop_cons_skipped fl env m rest statbuf st hsk]
      exact ih hrest statbuf st

theorem listedEntries_length (fl : Flags) (members : List Member) :
    ∀ statbuf, (listedEntries fl members statbuf).length
      = (members.filter (fun m => decide (listedSpec fl.aflag fl.Aflag m.d_name))).length := by
  induction members with
  | nil => intro statbuf; rfl
  | cons m rest ih =>
    intro statbuf
    by_cases hl : listedSpec fl.aflag fl.Aflag m.d_name
    · simp [listedEntries, hl, ih]
    · simp [listedEntries, hl, ih]

/-- C9, run on the failing input, and what holds apart from it.  The member `notes`
is listed, but its owner has no passwd entry and `-n` is not set: `dopath` dereferences
the null pointer that `getpwuid` returns and the member is not collected; with `-n`
it is.  Apart from that fault the filter is as claimed: a name is skipped exactly when
it is not listed; when `-n` is set or the ids of all listed members resolve, `dopath`
returns with exactly one entry appended, in `readdir` order, for every listed member
and none for any other; with `-A` set (alone or together with `-a`) the listed
names are those other than `.` and `..`. -/
theorem dopath_visibility (fl : Flags) (env : Env) :
    (listedSpec false false "notes".toList ∧
      faultOf (dopath {} unknownOwnerEnv [sampleMember "notes"] sampleStat initializeFiles)
        = some .nullPointer ∧
      faultOf (listDirectory {} unknownOwnerEnv [sampleMember "notes"] sampleStat)
        = some .nullPointer ∧
      collectedNames (dopath { nflag := true } unknownOwnerEnv [sampleMember "notes"]
        sampleStat initializeFiles) = some ["notes"]) ∧
    (∀ d_name, IsCString d_name →
      (skipped fl d_name = false ↔ listedSpec fl.aflag fl.Aflag d_name)) ∧
    (∀ (members : List Member) (statbuf : Stat) (st : Session),
      (∀ m ∈ members, IsCString m.d_name) →
      (fl.nflag = true ∨ ∀ f ∈ listedEntries fl members statbuf, resolves env f = true) →
      ∃ st1, dopath fl env members statbuf st = .ok st1 ∧
        st1.files = st.files ++ listedEntries fl members statbuf) ∧
    (∀ (members : List Member) (statbuf : Stat) (st : Session),
      (∀ m ∈ members, IsCString m.d_name) → fl.nflag = false →
      (∃ f ∈ listedEntries fl members statbuf, resolves env f = false) →
      dopath fl env members statbuf st = .error .nullPointer) ∧
    (∀ (members : List Member) (statbuf : Stat),
      (listedEntries fl members statbuf).length
        = (members.filter
            (fun m => decide (listedSpec fl.aflag fl.Aflag m.d_name))).length) ∧
    (∀ d_name, fl.Aflag = true →
      (listedSpec fl.aflag fl.Aflag d_name ↔ d_name ≠ ['.'] ∧ d_name ≠ ['.', '.'])) ∧
    (collectedNames (dopath { aflag := true, Aflag := true } sampleEnv dotMembers sampleStat
        initializeFiles) = some [".profile", "notes"] ∧
      collectedNames (dopath { Aflag := true } sampleEnv dotMembers sampleStat
        initializeFiles) = some [".profile", "notes"] ∧
      collectedNames (dopath { aflag := true } sampleEnv dotMembers sampleStat
        initializeFiles) = some [".", "..", ".profile", "notes"] ∧
      collectedNames (dopath {} sampleEnv dotMembers sampleStat initializeFiles)
        = some ["notes"]) := by
  refine ⟨by decide!, fun d_name h => skipped_eq_false_iff fl d_name h, ?_, ?_,
    fun members statbuf => listedEntries_length fl members statbuf, ?_, by decide!⟩
  · intro members statbuf st hn hres
    exact (dopathLoop_listed fl env members hn statbuf st).1 hres
  · intro members statbuf st hn hnf hex
    exact (dopathLoop_listed fl env members hn statbuf st).2 hnf hex
  · intro d_name hA
    unfold listedSpec
    simp [hA]

theorem gridCell_slot (fl : Flags) (st : Session) (L i j : Nat) (hi : i < L)
    (hj : j < st.column_count) (hcols : st.column_count ≤ COL_MAX ∨ fl.win_cols = 0) :
    gridCell fl st L i j = .ok (slotText fl st L i j (renderOrder fl st)[i + j * L]?) := by
  unfold gridCell
  rw [gridEntry_eq_getElem?]
  cases h : (renderOrder fl st)[i + j * L]? with
  | none => simp [slotText]
  | some f =>
    by_cases hw : fl.win_cols = 0
    · simp [cellText, hw, slotText, plainCell]
    · have hL : L ≠ 0 := by omega
      have hdiv : (i + j * L) / L = j := by
        rw [Nat.add_mul_div_right i j (by omega), Nat.div_eq_of_lt hi, Nat.zero_add]
      have hcm : ¬ COL_MAX ≤ j := by
        rcases hcols with h1 | h1
        · omega
        · exact absurd h1 hw
      simp [cellText, hw, hL, hdiv, hcm, slotText, plainCell]

theorem gridRowFrom_slots (fl : Flags) (st : Session) (L i : Nat) (hi : i < L)
    (hcols : st.column_count ≤ COL_MAX ∨ fl.win_cols = 0) (k : Nat) :
    ∀ j, j + k = st.column_count →
      gridRowFrom fl st L i k j
        = .ok (((List.range' j k).map (fun j =>
            slotText fl st L i j (renderOrder fl st)[i + j * L]?)).flatten) := by
  induction k with
  | zero => intro j _; rfl
  | succ k ih =>
    intro j hj
    rw [gridRowFrom, gridCell_slot fl st L i j hi (by omega) hcols, ih (j + 1) (by omega)]
    rfl

theorem gridRowsFrom_slots (fl : Flags) (st : Session) (L : Nat)
    (hcols : st.column_count ≤ COL_MAX ∨ fl.win_cols = 0) (k : Nat) :
    ∀ i, i + k = L →
      gridRowsFrom fl st L k i
        = .ok (((List.range' i k).map (fun i =>
            ((List.range' 0 st.column_count).map (fun j =>
              slotText fl st L i j (renderOrder fl st)[i + j * L]?)).flatten)).flatten) := by
  induction k with
  | zero => intro i _; rfl
  | succ k ih =>
    intro i hi
    rw [gridRowsFrom, gridRow, gridRowFrom_slots fl st L i (by omega) hcols st.column_count 0
      (by omega), ih (i + 1) (by omega)]
    rfl

/-- The grid branch of `printDir` prints the grid listing of the render order. -/
theorem printDir_grid (fl : Flags) (env : Env) (st : Session)
    (hlf : fl.line_format = false) (hc : 0 < st.column_count)
    (hcols : st.column_count ≤ COL_MAX ∨ fl.win_cols = 0) :
    printDir fl env st = .ok (gridListing fl st (renderOrder fl st) ++ ['\n']) := by
  have hne : st.column_count ≠ 0 := by omega
  simp only [printDir, hlf, Bool.false_eq_true, if_false, hne]
  rw [gridRowsFrom_slots fl st _ hcols _ 0 (by omega)]
  simp only [gridListing, List.range_eq_range']

theorem readByColumns_eq {α : Type} (order : List α) (c L : Nat)
    (h : order.length ≤ c * L) : readByColumns order c L = order := by
  unfold readByColumns
  have hcol : (List.range c).map (fun j => (List.range L).filterMap (fun i => order[i + j * L]?))
      = (List.range c).map (fun j => (order.drop (j * L)).take L) := by
    apply List.map_congr_left
    intro j _
    exact filterMap_range_offset order (j * L) L
  rw [hcol, flatten_columns]
  exact List.take_of_length_le h

theorem readByRows_perm {α : Type} (order : List α) (c L : Nat)
    (h : order.length ≤ c * L) : (readByRows order c L).Perm order := by
  have hp := flatten_transpose_perm (fun i j => order[i + j * L]?) L c
  have hc := readByColumns_eq order c L h
  unfold readByColumns at hc
  unfold readByRows
  rw [hc] at hp
  exact hp

theorem mem_files_of_renderOrder (fl : Flags) (st : Session) (f : FileInfo)
    (h : f ∈ renderOrder fl st) : f ∈ st.files := by
  unfold renderOrder at h
  split at h
  · exact List.mem_reverse.mp h
  · exact h

theorem longLinesFrom_lines (fl : Flags) (env : Env) (st : Session)
    (hres : ∀ f ∈ st.files, longLineFault fl env f = false) (k : Nat) :
    ∀ i, i + k = st.total_files →
      longLinesFrom fl env st k i
        = .ok (((List.range' i k).map (fun p =>
            match (renderOrder fl st)[p]? with
            | some f => longLine fl env st p f
            | none => [])).flatten) := by
  induction k with
  | zero => intro i _; rfl
  | succ k ih =>
    intro i hi
    have hlt : i < st.total_files := by omega
    have hb : i < (renderOrder fl st).length := by rw [renderOrder_length]; exact hlt
    have hget : (renderOrder fl st)[i]? = some ((renderOrder fl st)[i]) :=
      List.getElem?_eq_getElem hb
    have hmem : (renderOrder fl st)[i] ∈ st.files :=
      mem_files_of_renderOrder fl st _ (List.getElem_mem hb)
    rw [longLinesFrom, renderOrder_getElem? fl st i hlt, hget]
    simp only [hres _ hmem, Bool.false_eq_true, if_false, ih (i + 1) (by omega),
      List.range'_succ, List.map_cons, List.flatten_cons, hget]

/-- The long format with `lflag` set prints the `total` line and the long listing of
the render order, when no iteration meets a null pointer. -/
theorem printDir_long (fl : Flags) (env : Env) (st : Session)
    (hlf : fl.line_format = true) (hl : fl.lflag = true)
    (hres : ∀ f ∈ st.files, longLineFault fl env f = false) :
    printDir fl env st
      = .ok ("total ".toList ++ decimal st.total_blocks ++ ['\n']
          ++ longListing fl env st (renderOrder fl st) ++ ['\n']) := by
  simp only [printDir, hlf, if_true, longLines]
  rw [longLinesFrom_lines fl env st hres st.total_files 0 (by omega)]
  have hlen := renderOrder_length fl st
  have hlines : (List.range' 0 st.total_files).map (fun p =>
        match (renderOrder fl st)[p]? with
        | some f => longLine fl env st p f
        | none => [])
      = (List.range (renderOrder fl st).length).map (fun i =>
        match (renderOrder fl st)[i]? with
        | some f =>
          longFields fl env st f ++ env.strftime (timeFormat env.now f.time) f.time
            ++ [' '] ++ f.name ++ (if i + 1 < (renderOrder fl st).length then ['\n'] else [])
        | none => []) := by
    rw [hlen, List.range_eq_range']
    apply List.map_congr_left
    intro p _
    cases (renderOrder fl st)[p]? with
    | none => rfl
    | some f => simp only [longLine, longFields, hl, if_true, List.append_assoc]
  simp only [hlines, longListing]

theorem filterMap_flatten_map {α β γ : Type} (l : List α) (f : α → List β)
    (g : β → Option γ) :
    ((l.map f).flatten).filterMap g = (l.map (fun x => (f x).filterMap g)).flatten := by
  induction l with
  | nil => rfl
  | cons x rest ih =>
    simp only [List.map_cons, List.flatten_cons, List.filterMap_append, ih]

/-- The entries that the rows of the grid show are the entries at the positions
`gridPositions` lists, in the same order. -/
theorem readByRows_positions {α : Type} (order : List α) (c L : Nat) :
    readByRows order c L
      = (gridPositions order.length c L).filterMap (fun p => order[p]?) := by
  unfold readByRows gridPositions
  rw [filterMap_flatten_map]
  congr 1
  apply List.map_congr_left
  intro i _
  rw [List.filterMap_filterMap]
  apply List.filterMap_congr
  intro j _
  by_cases h : i + j * L < order.length
  · simp [h]
  · simp only [h, if_false, Option.bind]
    exact List.getElem?_eq_none (by omega)

/-- C4. With `-r` the stored array is left as it is (the layout search only reads it)
and both render modes read entry `total_files - 1 - i` at flat position `i`.  The
long format (every option that selects it sets `lflag`) prints the long listing of
the stored entries in reverse, where without the flag it prints that of the stored
entries, each line ending in the name of its entry; this for runs in which no
lookup of an owner or group meets a null pointer.  The grid printed with the flag is the grid of the stored entries in reverse,
the grid printed without it that of the stored entries, whatever the column counts
of the two; a grid read column by column gives back its sequence.  The stored
names `a`, `b`, `c` are printed as `c`, `b`, `a` in both modes. -/
theorem reverse_flag_render_order (fl : Flags) (env : Env) (st : Session) :
    (∀ st1, calculateColumnCount { fl with rflag := true } st = .ok st1 →
      st1.files = st.files) ∧
    (∀ i, renderPos { fl with rflag := true } st.total_files i = st.total_files - 1 - i) ∧
    ((∀ f ∈ st.files, longLineFault { fl with lflag := true } env f = false) →
      printDir { fl with rflag := true, lflag := true, line_format := true } env st
        = .ok ("total ".toList ++ decimal st.total_blocks ++ ['\n']
            ++ longListing fl env st st.files.reverse ++ ['\n']) ∧
      printDir { fl with rflag := false, lflag := true, line_format := true } env st
        = .ok ("total ".toList ++ decimal st.total_blocks ++ ['\n']
            ++ longListing fl env st st.files ++ ['\n'])) ∧
    (∀ st1 st2 : Session, st1.files = st.files → st2.files = st.files →
      0 < st1.column_count → 0 < st2.column_count →
      (st1.column_count ≤ COL_MAX ∨ fl.win_cols = 0) →
      (st2.column_count ≤ COL_MAX ∨ fl.win_cols = 0) →
      printDir { fl with rflag := true, line_format := false } env st1
        = .ok (gridListing fl st1 st.files.reverse ++ ['\n']) ∧
      printDir { fl with rflag := false, line_format := false } env st2
        = .ok (gridListing fl st2 st.files ++ ['\n'])) ∧
    (∀ (order : List FileInfo) (c : Nat), 0 < c →
      readByColumns order c (ceilDiv order.length c) = order) ∧
    (printedText (printDir { rflag := true, lflag := true, line_format := true } sampleEnv
        threeSorted)
      = some ("total 0\n-rw-r--r-- 1 user group 0 Jan  1 00:00 c\n"
          ++ "-rw-r--r-- 1 user group 0 Jan  1 00:00 b\n"
          ++ "-rw-r--r-- 1 user group 0 Jan  1 00:00 a\n") ∧
      printedText (renderDirectory { rflag := true } sampleEnv threeSorted)
        = some "c  b  a\n" ∧
      printedText (renderDirectory {} sampleEnv threeSorted) = some "a  b  c\n" ∧
      printedText (renderDirectory { rflag := true, win_cols := 4 } sampleEnv threeSorted)
        = some "c\nb\na\n") := by
  refine ⟨?_, ?_, ?_, ?_, ?_, by decide!⟩
  · intro st1 h
    exact (calculateColumnCount_frame _ st st1 h).1
  · intro i
    rfl
  · intro hres
    constructor
    · exact printDir_long { fl with rflag := true, lflag := true, line_format := true } env st
        rfl rfl hres
    · exact printDir_long { fl with rflag := false, lflag := true, line_format := true } env st
        rfl rfl hres
  · intro st1 st2 h1 h2 hc1 hc2 hcols1 hcols2
    constructor
    · have h := printDir_grid { fl with rflag := true, line_format := false } env st1
        rfl hc1 hcols1
      have e : renderOrder { fl with rflag := true, line_format := false } st1
          = st.files.reverse := by
        simp [renderOrder, h1]
      rw [e] at h
      exact h
    · have h := printDir_grid { fl with rflag := false, line_format := false } env st2
        rfl hc2 hcols2
      have e : renderOrder { fl with rflag := false, line_format := false } st2
          = st.files := by
        simp [renderOrder, h2]
      rw [e] at h
      exact h
  · intro order c hc
    exact readByColumns_eq order c _ (le_mul_ceilDiv _ _ hc)

/-- C18. Grid coverage, for any entries and any `column_count ≥ 1`, with
`rows = ceil(total_files / column_count)`.  `printDir` prints the grid listing of the
render order: its nested loops print the slots row by row, and the slot in row `i`,
column `j` holds the entry at flat position `i + j * rows` (for a column count within
the 20 accumulator slots, or a terminal width of zero).  The in-range positions the
loops reach are a rearrangement of `0, …, total_files - 1`, each reached exactly once;
column `j` holds the contiguous run from `j * rows` of length
`min(rows, total_files - j * rows)`; the entries printed are those at the positions
reached, in that order, and are a rearrangement of the stored entries, so every entry
is printed exactly once; read column by column the grid is the render order. -/
theorem grid_coverage (fl : Flags) (env : Env) (st : Session) (hc : 1 ≤ st.column_count) :
    ((st.column_count ≤ COL_MAX ∨ fl.win_cols = 0) →
      printDir { fl with line_format := false } env st
        = .ok (gridListing fl st (renderOrder fl st) ++ ['\n'])) ∧
    (gridPositions st.total_files st.column_count
      (ceilDiv st.total_files st.column_count)).Perm (List.range st.total_files) ∧
    (∀ j, columnPositions st.total_files (ceilDiv st.total_files st.column_count) j
      = List.range' (j * ceilDiv st.total_files st.column_count)
          (min (ceilDiv st.total_files st.column_count)
            (st.total_files - j * ceilDiv st.total_files st.column_count))) ∧
    ((List.range st.column_count).map
        (fun j => columnPositions st.total_files
          (ceilDiv st.total_files st.column_count) j)).flatten
      = List.range st.total_files ∧
    readByRows (renderOrder fl st) st.column_count (ceilDiv st.total_files st.column_count)
      = (gridPositions st.total_files st.column_count
          (ceilDiv st.total_files st.column_count)).filterMap
            (fun p => (renderOrder fl st)[p]?) ∧
    (readByRows (renderOrder fl st) st.column_count
      (ceilDiv st.total_files st.column_count)).Perm st.files ∧
    readByColumns (renderOrder fl st) st.column_count
      (ceilDiv st.total_files st.column_count) = renderOrder fl st := by
  have hlen := renderOrder_length fl st
  have hcover : (renderOrder fl st).length
      ≤ st.column_count * ceilDiv st.total_files st.column_count := by
    rw [hlen]
    exact le_mul_ceilDiv _ _ hc
  have hcolumns := columns_cover_range st.total_files st.column_count hc
  refine ⟨?_, ?_, ?_, hcolumns, ?_, ?_, readByColumns_eq _ _ _ hcover⟩
  · intro hcols
    have h := printDir_grid { fl with line_format := false } env st rfl hc hcols
    exact h
  · have h := flatten_transpose_perm
      (fun i j => if i + j * ceilDiv st.total_files st.column_count < st.total_files
        then some (i + j * ceilDiv st.total_files st.column_count) else none)
      (ceilDiv st.total_files st.column_count) st.column_count
    unfold columnPositions at hcolumns
    unfold gridPositions
    rw [hcolumns] at h
    exact h
  · intro j
    rw [columnPositions_eq, drop_take_range]
  · have h := readByRows_positions (renderOrder fl st) st.column_count
      (ceilDiv st.total_files st.column_count)
    rw [hlen] at h
    exact h
  · refine (readByRows_perm _ _ _ hcover).trans ?_
    unfold renderOrder
    split
    · exact List.reverse_perm _
    · exact List.Perm.refl _

theorem grid_coverage_witness :
    1 ≤ fiveMixedLaidOut.column_count ∧
    printDir { win_cols := 20 } sampleEnv fiveMixedLaidOut
      = .ok (gridListing { win_cols := 20 } fiveMixedLaidOut fiveMixedLaidOut.files
          ++ ['\n']) ∧
    (readByRows fiveMixedLaidOut.files 3 2).Perm fiveMixedLaidOut.files ∧
    printedText (printDir { win_cols := 20 } sampleEnv fiveMixedLaidOut)
      = some "aaa    cc        e\nbbbbb  dddddddd  \n" ∧
    (readByRows fiveMixedLaidOut.files 3 2).map (fun f => String.mk f.name)
      = ["aaa", "cc", "e", "bbbbb", "dddddddd"] :=
  ⟨by decide,
   (grid_coverage { win_cols := 20 } sampleEnv fiveMixedLaidOut (by decide)).1
     (Or.inl (by decide)),
   (grid_coverage { win_cols := 20 } sampleEnv fiveMixedLaidOut (by decide)).2.2.2.2.2.1,
   by decide!, by decide!⟩

end Myls
